import Mathlib

/-!
Verification of the tic-tac-toe minimax engine (src/tic-tac-toe.py).

The board is the Python list-of-lists of strings; empty cells hold their
digit label ("1".."9"), marked cells hold a player symbol ("x"/"o").
Scores are Python ints extended with the two float infinities used to
initialise the running best in minimax.
-/

set_option maxRecDepth 10000
set_option linter.unnecessarySeqFocus false

/-- Scores as they occur in the Python minimax: integers together with the
two float infinities used as initial values of the running best. -/
inductive XInt where
  | negInf : XInt
  | fin : Int → XInt
  | posInf : XInt
deriving DecidableEq, Repr

/-- Python comparison a > b on scores (int/int, int/infinity cases). -/
def XInt.bgt : XInt → XInt → Bool
  | .posInf, .posInf => false
  | .posInf, _ => true
  | .fin _, .posInf => false
  | .fin a, .fin b => decide (b < a)
  | .fin _, .negInf => true
  | .negInf, _ => false

/-- Python comparison a < b on scores. -/
def XInt.blt (a b : XInt) : Bool := XInt.bgt b a

/-- TicTacToe.board: a 3x3 matrix represented, as in the source, by a list
of row lists of strings. -/
abbrev Board := List (List String)

/-- The board built by TicTacToe.__init__. -/
def initial_board : Board := [["1", "2", "3"], ["4", "5", "6"], ["7", "8", "9"]]

/-- Read state.board[x][y] (out-of-range reads return ""). -/
def getCell (b : Board) (x y : Nat) : String :=
  (b.getD x []).getD y ""

/-- Write state.board[x][y] = v (out-of-range writes leave the board as is;
the program only writes in-bounds cells). -/
def setCell (b : Board) (x y : Nat) (v : String) : Board :=
  b.set x ((b.getD x []).set y v)

/-- Python str.isdigit() for the cell strings: nonempty and made of digits
(stated on the character list of the string). -/
def pyIsDigit (s : String) : Bool := !s.data.isEmpty && s.data.all Char.isDigit

/-- TicTacToe.empty_cells: the coordinates, in row-major order, of the cells
whose string content is a digit string.  Python's enumerate over the rows and
the row entries is modelled by indexing over List.range. -/
def empty_cells (b : Board) : List (Nat × Nat) :=
  (List.range b.length).flatMap (fun x =>
    (List.range (b.getD x []).length).filterMap (fun y =>
      if pyIsDigit (getCell b x y) then some (x, y) else none))

/-- The eight candidate lines built by MiniMax_AI_Player.wins: the three
rows, the three columns and the two diagonals. -/
def win_state (b : Board) : List (List String) :=
  [[getCell b 0 0, getCell b 0 1, getCell b 0 2],
   [getCell b 1 0, getCell b 1 1, getCell b 1 2],
   [getCell b 2 0, getCell b 2 1, getCell b 2 2],
   [getCell b 0 0, getCell b 1 0, getCell b 2 0],
   [getCell b 0 1, getCell b 1 1, getCell b 2 1],
   [getCell b 0 2, getCell b 1 2, getCell b 2 2],
   [getCell b 0 0, getCell b 1 1, getCell b 2 2],
   [getCell b 2 0, getCell b 1 1, getCell b 0 2]]

/-- MiniMax_AI_Player.wins: [player, player, player] in win_state. -/
def wins (b : Board) (player : String) : Bool :=
  (win_state b).contains [player, player, player]

/-- The expression "o" if s == "x" else "x" used for the opponent marker
in evaluate and for the player flip in minimax. -/
def other_marker (s : String) : String := if s = "x" then "o" else "x"

/-- MiniMax_AI_Player.evaluate: 1 if self has a winning line, -1 if the
other player has one, 0 otherwise. -/
def evaluate (self : String) (state : Board) : Int :=
  if wins state self then 1
  else if wins state (other_marker self) then -1
  else 0

/-- The for-loop of minimax over the empty cells.  rec is the recursive
minimax call at depth - 1 (the depth is fixed along the loop, so it is
captured in rec).  Each iteration keeps a copy of the incoming board,
simulates the move on the board, recurses with the other player, restores
the board from the copy (the board computed by the recursive call is
discarded), and keeps the running best under the strict comparison of the
maximizing or minimizing player. -/
def mmGo (self : String) (rec : Board → String → (Int × Int × XInt) × Board) :
    List (Nat × Nat) → Board → String → (Int × Int × XInt) →
    (Int × Int × XInt) × Board
  | [], state, _, best => (best, state)
  | cell :: rest, state, player, best =>
    -- board_copy = deepcopy(state.board)
    let board_copy := state
    -- state.board[x][y] = player
    let state1 := setCell state cell.1 cell.2 player
    let res := rec state1 (other_marker player)
    -- undo simulation: state.board = board_copy
    let score : Int × Int × XInt := (Int.ofNat cell.1, Int.ofNat cell.2, res.1.2.2)
    let best1 :=
      if player = self then
        if XInt.bgt score.2.2 best.2.2 then score else best
      else
        if XInt.blt score.2.2 best.2.2 then score else best
    mmGo self rec rest board_copy player best1

/-- MiniMax_AI_Player.minimax.  The result pairs the returned
[x, y, score] triple with the board the caller's state holds after the
call (the Python function mutates state.board during the search and
restores it, which is modelled by threading the board through).  The
terminal test "depth == 0 or wins(x) or wins(o)" is split on depth so that
the recursion is structural in depth; minimax_eq below restates the
function in the exact shape of the source. -/
def minimax (self : String) : Board → Nat → String → (Int × Int × XInt) × Board
  | state, 0, _ => ((-1, -1, XInt.fin (evaluate self state)), state)
  | state, d + 1, player =>
    let best : Int × Int × XInt :=
      if player = self then (-1, -1, XInt.negInf) else (-1, -1, XInt.posInf)
    if wins state "x" = true ∨ wins state "o" = true then
      ((-1, -1, XInt.fin (evaluate self state)), state)
    else
      mmGo self (fun b p => minimax self b d p) (empty_cells state) state player best

/-- minimax written exactly as in the source: terminal test first, then
the loop over the empty cells with the recursive call at depth - 1. -/
theorem minimax_eq (self : String) (state : Board) (depth : Nat) (player : String) :
    minimax self state depth player =
      if depth = 0 ∨ wins state "x" = true ∨ wins state "o" = true then
        ((-1, -1, XInt.fin (evaluate self state)), state)
      else
        mmGo self (fun b p => minimax self b (depth - 1) p) (empty_cells state)
          state player
          (if player = self then (-1, -1, XInt.negInf) else (-1, -1, XInt.posInf)) := by
  cases depth with
  | zero => simp [minimax]
  | succ d =>
    simp only [minimax, Nat.succ_ne_zero, false_or, Nat.add_sub_cancel]

/-- MiniMax_AI_Player.get_move restricted to its returned coordinates: the
random opening cell when all 9 cells are empty (random.choice is modelled by
the index pick into the list it draws from), otherwise the first two
components of the minimax result at depth len(empty_cells). -/
def get_move (self : String) (game : Board) (pick : Nat) : Int × Int :=
  if (empty_cells game).length = 9 then
    let c := (empty_cells game).getD pick (0, 0)
    (Int.ofNat c.1, Int.ofNat c.2)
  else
    let mv := (minimax self game (empty_cells game).length self).1
    (mv.1, mv.2.1)

/-- TicTacToe.valid_move: [x, y] in self.empty_cells(). -/
def valid_move (b : Board) (x y : Nat) : Bool :=
  (empty_cells b).contains (x, y)

/-- TicTacToe.make_move: mark the move if it is valid and report whether it
was made; the board is returned unchanged otherwise. -/
def make_move (b : Board) (sym : String) (move : Nat × Nat) : Bool × Board :=
  if valid_move b move.1 move.2 then (true, setCell b move.1 move.2 sym)
  else (false, b)

/-- Game-over test of the self-play harness: a winning line exists for
either marker or no empty cell remains. -/
def game_over (b : Board) : Bool :=
  wins b "x" || wins b "o" || (empty_cells b).isEmpty

/-- One self-play ply: the active player's get_move applied to the board
through make_move. -/
def play_turn (b : Board) (turn : String) (pick : Nat) : Board :=
  let mv := get_move turn b pick
  (make_move b turn (mv.1.toNat, mv.2.toNat)).2

/-- Self-play driven by MiniMax_AI_Player.get_move on both sides: play
turns alternately until a winning line exists or no empty cell remains. -/
def self_play : Nat → Board → String → Nat → Board
  | 0, b, _, _ => b
  | n + 1, b, turn, pick =>
    if game_over b then b
    else self_play n (play_turn b turn pick) (other_marker turn) pick

/-- A complete AI-vs-AI game from the empty board, x moving first with the
random opening modelled by the index pick. -/
def self_play_game (pick : Nat) : Board := self_play 9 initial_board "x" pick

/-! ### Order facts for the score comparisons -/

theorem XInt.bgt_trans {a b c : XInt} (h1 : XInt.bgt a b = true)
    (h2 : XInt.bgt b c = true) : XInt.bgt a c = true := by
  cases a <;> cases b <;> cases c <;> simp [XInt.bgt] at * <;> omega

theorem XInt.bgt_of_bgt_of_nbgt {a b c : XInt} (h1 : XInt.bgt a b = true)
    (h2 : XInt.bgt c b = false) : XInt.bgt a c = true := by
  cases a <;> cases b <;> cases c <;> simp [XInt.bgt] at * <;> omega

theorem XInt.bgt_fin_negInf (n : Int) : XInt.bgt (XInt.fin n) XInt.negInf = true := rfl

theorem XInt.blt_fin_posInf (n : Int) : XInt.blt (XInt.fin n) XInt.posInf = true := rfl

/-! ### The loop preserves the board (undo on every path) -/

theorem mmGo_snd (self : String) (rec : Board → String → (Int × Int × XInt) × Board) :
    ∀ (cells : List (Nat × Nat)) (state : Board) (player : String)
      (best : Int × Int × XInt), (mmGo self rec cells state player best).2 = state := by
  intro cells
  induction cells with
  | nil => intro state player best; simp [mmGo]
  | cons c rest ih => intro state player best; simp only [mmGo]; exact ih state player _

theorem minimax_snd (self : String) (state : Board) (depth : Nat) (player : String) :
    (minimax self state depth player).2 = state := by
  cases depth with
  | zero => simp [minimax]
  | succ d =>
    simp only [minimax]
    split
    · rfl
    · exact mmGo_snd _ _ _ _ _ _

/-! ### The running best of the loop: first strict improvement wins -/

/-- The score assigned to a candidate cell by one loop iteration: the score
component of the recursive result on the board with the cell marked by the
player. -/
def rec_score (rec : Board → String → (Int × Int × XInt) × Board) (b : Board)
    (player : String) (c : Nat × Nat) : XInt :=
  (rec (setCell b c.1 c.2 player) (other_marker player)).1.2.2

theorem mmGo_max_run (self : String)
    (rec : Board → String → (Int × Int × XInt) × Board) (b : Board)
    (player : String) (hp : player = self) :
    ∀ (cells : List (Nat × Nat)) (c0 : Int × Int × XInt),
      ((mmGo self rec cells b player c0).1 = c0 ∧
        ∀ c ∈ cells, XInt.bgt (rec_score rec b player c) c0.2.2 = false) ∨
      (∃ l1 c' l2, cells = l1 ++ c' :: l2 ∧
        (mmGo self rec cells b player c0).1 =
          (Int.ofNat c'.1, Int.ofNat c'.2, rec_score rec b player c') ∧
        XInt.bgt (rec_score rec b player c') c0.2.2 = true ∧
        (∀ c ∈ l1, XInt.bgt (rec_score rec b player c') (rec_score rec b player c) = true) ∧
        (∀ c ∈ l2, XInt.bgt (rec_score rec b player c) (rec_score rec b player c') = false)) := by
  intro cells
  induction cells with
  | nil => intro c0; exact Or.inl ⟨by simp [mmGo], by simp⟩
  | cons c rest ih =>
    intro c0
    have hstep : mmGo self rec (c :: rest) b player c0 =
        mmGo self rec rest b player
          (if XInt.bgt (rec_score rec b player c) c0.2.2 then
            (Int.ofNat c.1, Int.ofNat c.2, rec_score rec b player c) else c0) := by
      subst hp
      simp only [mmGo, rec_score]
      simp
    by_cases hc : XInt.bgt (rec_score rec b player c) c0.2.2 = true
    · rw [hstep, if_pos hc]
      rcases ih (Int.ofNat c.1, Int.ofNat c.2, rec_score rec b player c) with
        ⟨heq, hall⟩ | ⟨l1, c', l2, hsplit, heq, hgt, hl1, hl2⟩
      · exact Or.inr ⟨[], c, rest, rfl, heq, hc, by simp, by simpa using hall⟩
      · refine Or.inr ⟨c :: l1, c', l2, by rw [hsplit, List.cons_append], heq,
          XInt.bgt_trans hgt hc, ?_, hl2⟩
        intro a ha
        rcases List.mem_cons.mp ha with h | h
        · subst h; simpa using hgt
        · exact hl1 a h
    · replace hc : XInt.bgt (rec_score rec b player c) c0.2.2 = false :=
        Bool.eq_false_iff.mpr hc
      rw [hstep, if_neg (by simp [hc])]
      rcases ih c0 with ⟨heq, hall⟩ | ⟨l1, c', l2, hsplit, heq, hgt, hl1, hl2⟩
      · refine Or.inl ⟨heq, ?_⟩
        intro a ha
        rcases List.mem_cons.mp ha with h | h
        · subst h; exact hc
        · exact hall a h
      · refine Or.inr ⟨c :: l1, c', l2, by rw [hsplit, List.cons_append], heq, hgt, ?_, hl2⟩
        intro a ha
        rcases List.mem_cons.mp ha with h | h
        · subst h; exact XInt.bgt_of_bgt_of_nbgt hgt hc
        · exact hl1 a h

theorem XInt.bgt_of_nbgt_of_bgt {a b c : XInt} (h1 : XInt.bgt b a = true)
    (h2 : XInt.bgt b c = false) : XInt.bgt c a = true := by
  cases a <;> cases b <;> cases c <;> simp [XInt.bgt] at * <;> omega

theorem mmGo_min_run (self : String)
    (rec : Board → String → (Int × Int × XInt) × Board) (b : Board)
    (player : String) (hp : ¬player = self) :
    ∀ (cells : List (Nat × Nat)) (c0 : Int × Int × XInt),
      ((mmGo self rec cells b player c0).1 = c0 ∧
        ∀ c ∈ cells, XInt.blt (rec_score rec b player c) c0.2.2 = false) ∨
      (∃ l1 c' l2, cells = l1 ++ c' :: l2 ∧
        (mmGo self rec cells b player c0).1 =
          (Int.ofNat c'.1, Int.ofNat c'.2, rec_score rec b player c') ∧
        XInt.blt (rec_score rec b player c') c0.2.2 = true ∧
        (∀ c ∈ l1, XInt.blt (rec_score rec b player c') (rec_score rec b player c) = true) ∧
        (∀ c ∈ l2, XInt.blt (rec_score rec b player c) (rec_score rec b player c') = false)) := by
  intro cells
  induction cells with
  | nil => intro c0; exact Or.inl ⟨by simp [mmGo], by simp⟩
  | cons c rest ih =>
    intro c0
    have hstep : mmGo self rec (c :: rest) b player c0 =
        mmGo self rec rest b player
          (if XInt.blt (rec_score rec b player c) c0.2.2 then
            (Int.ofNat c.1, Int.ofNat c.2, rec_score rec b player c) else c0) := by
      simp only [mmGo, rec_score]
      rw [if_neg hp]
    by_cases hc : XInt.blt (rec_score rec b player c) c0.2.2 = true
    · rw [hstep, if_pos hc]
      rcases ih (Int.ofNat c.1, Int.ofNat c.2, rec_score rec b player c) with
        ⟨heq, hall⟩ | ⟨l1, c', l2, hsplit, heq, hlt, hl1, hl2⟩
      · exact Or.inr ⟨[], c, rest, rfl, heq, hc, by simp, by simpa using hall⟩
      · refine Or.inr ⟨c :: l1, c', l2, by rw [hsplit, List.cons_append], heq,
          XInt.bgt_trans hc hlt, ?_, hl2⟩
        intro a ha
        rcases List.mem_cons.mp ha with h | h
        · subst h; simpa using hlt
        · exact hl1 a h
    · replace hc : XInt.blt (rec_score rec b player c) c0.2.2 = false :=
        Bool.eq_false_iff.mpr hc
      rw [hstep, if_neg (by simp [hc])]
      rcases ih c0 with ⟨heq, hall⟩ | ⟨l1, c', l2, hsplit, heq, hlt, hl1, hl2⟩
      · refine Or.inl ⟨heq, ?_⟩
        intro a ha
        rcases List.mem_cons.mp ha with h | h
        · subst h; exact hc
        · exact hall a h
      · refine Or.inr ⟨c :: l1, c', l2, by rw [hsplit, List.cons_append], heq, hlt, ?_, hl2⟩
        intro a ha
        rcases List.mem_cons.mp ha with h | h
        · subst h; exact XInt.bgt_of_nbgt_of_bgt hlt hc
        · exact hl1 a h

/-! ### Structure of empty_cells: row-major order, membership, length -/

/-- All coordinates of the board, row by row.  Depends only on the shape
(row count and row lengths) of the board. -/
def coords (b : Board) : List (Nat × Nat) :=
  (List.range b.length).flatMap (fun x =>
    (List.range ((b.getD x []).length)).map (fun y => (x, y)))

theorem filterMap_if_some {α β : Type} (p : α → Bool) (f : α → β) :
    ∀ l : List α,
      l.filterMap (fun a => if p a then some (f a) else none) = (l.filter p).map f := by
  intro l
  induction l with
  | nil => rfl
  | cons a t ih =>
    by_cases h : p a = true
    · simp [List.filterMap_cons, List.filter_cons, h, ih]
    · simp [List.filterMap_cons, List.filter_cons, Bool.eq_false_iff.mpr h, ih]

theorem empty_cells_eq_filter (b : Board) :
    empty_cells b = (coords b).filter (fun c => pyIsDigit (getCell b c.1 c.2)) := by
  unfold empty_cells coords
  rw [List.filter_flatMap]
  apply List.flatMap_congr
  intro x _
  rw [List.filter_map, filterMap_if_some (fun y => pyIsDigit (getCell b x y)) (fun y => (x, y))]
  rfl

/-- Strict row-major order on coordinates. -/
def rowMajorLt (c c' : Nat × Nat) : Prop :=
  c.1 < c'.1 ∨ (c.1 = c'.1 ∧ c.2 < c'.2)

theorem coords_pairwise (b : Board) : (coords b).Pairwise rowMajorLt := by
  unfold coords
  rw [List.pairwise_flatMap]
  constructor
  · intro x _
    rw [List.pairwise_map]
    exact (List.pairwise_lt_range _).imp (fun h => Or.inr ⟨rfl, h⟩)
  · exact (List.pairwise_lt_range _).imp (fun h c hc c' hc' => by
      simp only [List.mem_map] at hc hc'
      obtain ⟨y, _, rfl⟩ := hc
      obtain ⟨y', _, rfl⟩ := hc'
      exact Or.inl h)

theorem empty_cells_pairwise (b : Board) : (empty_cells b).Pairwise rowMajorLt := by
  rw [empty_cells_eq_filter]
  exact (coords_pairwise b).sublist (List.filter_sublist _)

theorem rowMajorLt_ne {c c' : Nat × Nat} (h : rowMajorLt c c') : c ≠ c' := by
  rcases h with h | ⟨h1, h2⟩ <;> intro he <;> subst he <;> omega

theorem empty_cells_nodup (b : Board) : (empty_cells b).Nodup :=
  (empty_cells_pairwise b).imp rowMajorLt_ne

theorem coords_nodup (b : Board) : (coords b).Nodup :=
  (coords_pairwise b).imp rowMajorLt_ne

theorem mem_coords {b : Board} {c : Nat × Nat} :
    c ∈ coords b ↔ c.1 < b.length ∧ c.2 < (b.getD c.1 []).length := by
  unfold coords
  simp only [List.mem_flatMap, List.mem_range, List.mem_map]
  constructor
  · rintro ⟨x, hx, y, hy, rfl⟩; exact ⟨hx, hy⟩
  · rintro ⟨h1, h2⟩; exact ⟨c.1, h1, c.2, h2, rfl⟩

theorem mem_empty_cells {b : Board} {c : Nat × Nat} :
    c ∈ empty_cells b ↔
      c.1 < b.length ∧ c.2 < (b.getD c.1 []).length ∧
        pyIsDigit (getCell b c.1 c.2) = true := by
  rw [empty_cells_eq_filter, List.mem_filter, mem_coords]
  tauto

/-! ### Reading and writing cells -/

theorem setCell_length (b : Board) (x y : Nat) (v : String) :
    (setCell b x y v).length = b.length := List.length_set ..

theorem setCell_row_length (b : Board) (x y : Nat) (v : String) (i : Nat) :
    ((setCell b x y v).getD i []).length = (b.getD i []).length := by
  unfold setCell
  by_cases hix : x = i
  · subst hix
    by_cases hx : x < b.length
    · simp [List.getD_eq_getElem?_getD, List.getElem?_set_self hx]
    · rw [List.set_eq_of_length_le (Nat.le_of_not_lt hx)]
  · simp [List.getD_eq_getElem?_getD, List.getElem?_set_ne hix]

theorem getCell_setCell_ne (b : Board) (x y : Nat) (v : String) (x' y' : Nat)
    (h : ¬(x' = x ∧ y' = y)) :
    getCell (setCell b x y v) x' y' = getCell b x' y' := by
  unfold getCell setCell
  by_cases hx' : x = x'
  · subst hx'
    have hy' : y' ≠ y := fun he => h ⟨rfl, he⟩
    by_cases hx : x < b.length
    · simp [List.getD_eq_getElem?_getD, List.getElem?_set_self hx,
        List.getElem?_set_ne (Ne.symm hy')]
    · rw [List.set_eq_of_length_le (Nat.le_of_not_lt hx)]
  · simp [List.getD_eq_getElem?_getD, List.getElem?_set_ne hx']

theorem getCell_setCell_self (b : Board) (x y : Nat) (v : String)
    (hx : x < b.length) (hy : y < (b.getD x []).length) :
    getCell (setCell b x y v) x y = v := by
  unfold getCell setCell
  have hy' : y < ((b.getD x []).set y v).length := by simpa using hy
  have h1 : (b.set x ((b.getD x []).set y v)).getD x [] = (b.getD x []).set y v := by
    simp [List.getD_eq_getElem?_getD, List.getElem?_set_self hx]
  rw [h1, List.getD_eq_getElem?_getD, List.getElem?_set_self hy]
  rfl

theorem getCell_setCell_or (b : Board) (x y : Nat) (v : String) (x' y' : Nat) :
    getCell (setCell b x y v) x' y' = v ∨
      getCell (setCell b x y v) x' y' = getCell b x' y' := by
  by_cases h : x' = x ∧ y' = y
  · obtain ⟨rfl, rfl⟩ := h
    by_cases hx : x' < b.length
    · by_cases hy : y' < (b.getD x' []).length
      · exact Or.inl (getCell_setCell_self b x' y' v hx hy)
      · refine Or.inr ?_
        unfold getCell setCell
        rw [List.set_eq_of_length_le (Nat.le_of_not_lt hy)]
        by_cases hxl : x' < b.length
        · simp [List.getD_eq_getElem?_getD, List.getElem?_set_self hxl]
        · omega
    · refine Or.inr ?_
      unfold getCell setCell
      rw [List.set_eq_of_length_le (Nat.le_of_not_lt hx)]
  · exact Or.inr (getCell_setCell_ne b x y v x' y' h)

theorem coords_setCell (b : Board) (x y : Nat) (v : String) :
    coords (setCell b x y v) = coords b := by
  unfold coords
  rw [setCell_length]
  apply List.flatMap_congr
  intro i _
  rw [setCell_row_length]

/-! ### One write changes the number of empty cells by at most one -/

theorem filter_length_agree {α : Type} [DecidableEq α] (a0 : α) (p q : α → Bool) :
    ∀ l : List α, (∀ a ∈ l, a ≠ a0 → p a = q a) →
      (l.filter p).length ≤ (l.filter q).length +
        l.countP (fun a => decide (a = a0)) := by
  intro l
  induction l with
  | nil => simp
  | cons a t ih =>
    intro h
    have ht : ∀ a' ∈ t, a' ≠ a0 → p a' = q a' := fun a' ha' => h a' (List.mem_cons_of_mem _ ha')
    have iht := ih ht
    by_cases ha : a = a0
    · subst ha
      by_cases hp : p a = true <;> by_cases hq : q a = true <;>
        simp [List.filter_cons, List.countP_cons, hp, hq] <;> omega
    · have hpq : p a = q a := h a (List.mem_cons_self _ _) ha
      by_cases hp : p a = true
      · simp [List.filter_cons, List.countP_cons, hp, hpq ▸ hp, ha] at iht ⊢; omega
      · have hp' : p a = false := Bool.eq_false_iff.mpr hp
        simp [List.filter_cons, List.countP_cons, hp', hpq ▸ hp', ha] at iht ⊢; omega

theorem countP_eq_le_one_of_nodup {α : Type} [DecidableEq α] (a0 : α) :
    ∀ l : List α, l.Nodup → l.countP (fun a => decide (a = a0)) ≤ 1 := by
  intro l
  induction l with
  | nil => simp
  | cons a t ih =>
    intro hnd
    rcases List.nodup_cons.mp hnd with ⟨hna, hndt⟩
    by_cases ha : a = a0
    · subst ha
      have hz : t.countP (fun a' => decide (a' = a)) = 0 := by
        rw [List.countP_eq_zero]
        intro a' ha'
        simp only [decide_eq_true_eq]
        intro he
        exact hna (he ▸ ha')
      simp [List.countP_cons, hz]
    · have := ih hndt
      simp [List.countP_cons, ha]
      omega

theorem length_empty_cells_setCell (b : Board) (x y : Nat) (v : String) :
    (empty_cells b).length ≤ (empty_cells (setCell b x y v)).length + 1 := by
  rw [empty_cells_eq_filter, empty_cells_eq_filter, coords_setCell]
  have hagree : ∀ c ∈ coords b, c ≠ (x, y) →
      pyIsDigit (getCell b c.1 c.2) = pyIsDigit (getCell (setCell b x y v) c.1 c.2) := by
    intro c _ hc
    rw [getCell_setCell_ne b x y v c.1 c.2 (fun ⟨h1, h2⟩ => hc (Prod.ext h1 h2))]
  have hcount : (coords b).countP (fun c => decide (c = (x, y))) ≤ 1 :=
    countP_eq_le_one_of_nodup (x, y) (coords b) (coords_nodup b)
  calc ((coords b).filter (fun c => pyIsDigit (getCell b c.1 c.2))).length
      ≤ ((coords b).filter
          (fun c => pyIsDigit (getCell (setCell b x y v) c.1 c.2))).length +
            (coords b).countP (fun c => decide (c = (x, y))) :=
        filter_length_agree (x, y) _ _ (coords b) hagree
    _ ≤ _ + 1 := by omega

/-! ### Score bounds of minimax at admissible depths -/

theorem evaluate_bounds (self : String) (b : Board) :
    -1 ≤ evaluate self b ∧ evaluate self b ≤ 1 := by
  unfold evaluate
  by_cases h1 : wins b self = true
  · simp [h1]
  · by_cases h2 : wins b (other_marker self) = true <;> simp [h1, h2]

theorem minimax_nonterminal (self : String) (state : Board) (d : Nat) (player : String)
    (h : ¬(wins state "x" = true ∨ wins state "o" = true)) :
    minimax self state (d + 1) player =
      mmGo self (fun b p => minimax self b d p) (empty_cells state) state player
        (if player = self then (-1, -1, XInt.negInf) else (-1, -1, XInt.posInf)) := by
  simp only [minimax]
  rw [if_neg h]

theorem minimax_score_bounds (self : String) :
    ∀ (d : Nat) (b : Board) (p : String), d ≤ (empty_cells b).length →
      ∃ n : Int, (minimax self b d p).1.2.2 = XInt.fin n ∧ -1 ≤ n ∧ n ≤ 1 := by
  intro d
  induction d with
  | zero =>
    intro b p _
    refine ⟨evaluate self b, ?_, (evaluate_bounds self b).1, (evaluate_bounds self b).2⟩
    simp [minimax]
  | succ d ih =>
    intro b p hd
    by_cases hterm : wins b "x" = true ∨ wins b "o" = true
    · rw [minimax_eq, if_pos (Or.inr hterm)]
      exact ⟨evaluate self b, rfl, (evaluate_bounds self b).1, (evaluate_bounds self b).2⟩
    · rw [minimax_nonterminal self b d p hterm]
      have hne : empty_cells b ≠ [] := by
        intro h0
        rw [h0] at hd
        simp at hd
      have hchild : ∀ c ∈ empty_cells b,
          ∃ n, rec_score (fun b' p' => minimax self b' d p') b p c = XInt.fin n ∧
            -1 ≤ n ∧ n ≤ 1 := by
        intro c _
        have hlen := length_empty_cells_setCell b c.1 c.2 p
        exact ih (setCell b c.1 c.2 p) (other_marker p) (by omega)
      by_cases hp : p = self
      · rw [if_pos hp]
        rcases mmGo_max_run self _ b p hp (empty_cells b) (-1, -1, XInt.negInf) with
          ⟨heq, hall⟩ | ⟨l1, c', l2, hsplit, heq, _, _, _⟩
        · exfalso
          obtain ⟨c, hc⟩ := List.exists_mem_of_ne_nil _ hne
          obtain ⟨n, hn, _, _⟩ := hchild c hc
          have hbad := hall c hc
          rw [hn] at hbad
          simp [XInt.bgt] at hbad
        · have hc'mem : c' ∈ empty_cells b := by
            rw [hsplit]
            exact List.mem_append.mpr (Or.inr (List.mem_cons_self _ _))
          obtain ⟨n, hn, h1, h2⟩ := hchild c' hc'mem
          refine ⟨n, ?_, h1, h2⟩
          rw [heq]
          exact hn
      · rw [if_neg hp]
        rcases mmGo_min_run self _ b p hp (empty_cells b) (-1, -1, XInt.posInf) with
          ⟨heq, hall⟩ | ⟨l1, c', l2, hsplit, heq, _, _, _⟩
        · exfalso
          obtain ⟨c, hc⟩ := List.exists_mem_of_ne_nil _ hne
          obtain ⟨n, hn, _, _⟩ := hchild c hc
          have hbad := hall c hc
          rw [hn] at hbad
          simp [XInt.blt, XInt.bgt] at hbad
        · have hc'mem : c' ∈ empty_cells b := by
            rw [hsplit]
            exact List.mem_append.mpr (Or.inr (List.mem_cons_self _ _))
          obtain ⟨n, hn, h1, h2⟩ := hchild c' hc'mem
          refine ⟨n, ?_, h1, h2⟩
          rw [heq]
          exact hn

/-! ### The eight canonical lines, by coordinates -/

/-- The 3 rows, 3 columns and 2 diagonals as coordinate triples, in the
order in which MiniMax_AI_Player.wins lists them. -/
def line_coords : List (List (Nat × Nat)) :=
  [[(0, 0), (0, 1), (0, 2)],
   [(1, 0), (1, 1), (1, 2)],
   [(2, 0), (2, 1), (2, 2)],
   [(0, 0), (1, 0), (2, 0)],
   [(0, 1), (1, 1), (2, 1)],
   [(0, 2), (1, 2), (2, 2)],
   [(0, 0), (1, 1), (2, 2)],
   [(2, 0), (1, 1), (0, 2)]]

theorem wins_iff (b : Board) (m : String) :
    wins b m = true ↔ ∃ L ∈ line_coords, ∀ c ∈ L, getCell b c.1 c.2 = m := by
  have h1 : wins b m = true ↔ [m, m, m] ∈ win_state b := List.elem_iff
  rw [h1]
  unfold win_state line_coords
  simp only [List.mem_cons, List.not_mem_nil, or_false, List.forall_mem_cons,
    List.forall_mem_nil, and_true, List.cons.injEq, exists_eq_or_imp,
    exists_eq_left, forall_eq_or_imp, forall_eq]
  simp only [@eq_comm String m]

/-! ### The result of a non-terminal search: earliest strict optimum -/

/-- The score minimax assigns to marking cell c with player and searching
on with depth d for the other player. -/
def child_score (self : String) (b : Board) (d : Nat) (player : String)
    (c : Nat × Nat) : XInt :=
  (minimax self (setCell b c.1 c.2 player) d (other_marker player)).1.2.2

theorem child_score_bounds (self : String) (d : Nat) (b : Board) (p : String)
    (hd : d + 1 ≤ (empty_cells b).length) :
    ∀ c ∈ empty_cells b,
      ∃ n, child_score self b d p c = XInt.fin n ∧ -1 ≤ n ∧ n ≤ 1 := by
  intro c _
  have hlen := length_empty_cells_setCell b c.1 c.2 p
  exact minimax_score_bounds self d (setCell b c.1 c.2 p) (other_marker p) (by omega)

theorem minimax_first_opt (self : String) (d : Nat) (b : Board) (p : String)
    (hterm : ¬(wins b "x" = true ∨ wins b "o" = true)) (hd0 : d ≠ 0)
    (hd : d ≤ (empty_cells b).length) :
    ∃ l1 c' l2, empty_cells b = l1 ++ c' :: l2 ∧
      (minimax self b d p).1 =
        (Int.ofNat c'.1, Int.ofNat c'.2, child_score self b (d - 1) p c') ∧
      ((p = self →
        (∀ c ∈ l1, XInt.bgt (child_score self b (d - 1) p c')
          (child_score self b (d - 1) p c) = true) ∧
        (∀ c ∈ l2, XInt.bgt (child_score self b (d - 1) p c)
          (child_score self b (d - 1) p c') = false)) ∧
       (¬p = self →
        (∀ c ∈ l1, XInt.blt (child_score self b (d - 1) p c')
          (child_score self b (d - 1) p c) = true) ∧
        (∀ c ∈ l2, XInt.blt (child_score self b (d - 1) p c)
          (child_score self b (d - 1) p c') = false))) := by
  obtain ⟨d', rfl⟩ : ∃ d'', d = d'' + 1 := ⟨d - 1, by omega⟩
  simp only [Nat.add_sub_cancel]
  rw [minimax_nonterminal self b d' p hterm]
  have hne : empty_cells b ≠ [] := by
    intro h0
    rw [h0] at hd
    simp at hd
  have hchild := child_score_bounds self d' b p hd
  by_cases hp : p = self
  · rw [if_pos hp]
    rcases mmGo_max_run self _ b p hp (empty_cells b) (-1, -1, XInt.negInf) with
      ⟨heq, hall⟩ | ⟨l1, c', l2, hsplit, heq, _, hl1, hl2⟩
    · exfalso
      obtain ⟨c, hc⟩ := List.exists_mem_of_ne_nil _ hne
      obtain ⟨n, hn, _, _⟩ := hchild c hc
      have hbad := hall c hc
      rw [show rec_score (fun b' p' => minimax self b' d' p') b p c =
        child_score self b d' p c from rfl, hn] at hbad
      simp [XInt.bgt] at hbad
    · refine ⟨l1, c', l2, hsplit, by rw [heq]; rfl, fun _ => ⟨hl1, hl2⟩,
        fun hps => absurd hp hps⟩
  · rw [if_neg hp]
    rcases mmGo_min_run self _ b p hp (empty_cells b) (-1, -1, XInt.posInf) with
      ⟨heq, hall⟩ | ⟨l1, c', l2, hsplit, heq, _, hl1, hl2⟩
    · exfalso
      obtain ⟨c, hc⟩ := List.exists_mem_of_ne_nil _ hne
      obtain ⟨n, hn, _, _⟩ := hchild c hc
      have hbad := hall c hc
      rw [show rec_score (fun b' p' => minimax self b' d' p') b p c =
        child_score self b d' p c from rfl, hn] at hbad
      simp [XInt.blt, XInt.bgt] at hbad
    · exact ⟨l1, c', l2, hsplit, by rw [heq]; rfl, fun hps => absurd hps hp,
        fun _ => ⟨hl1, hl2⟩⟩

theorem minimax_result_cell (self : String) (d : Nat) (b : Board) (p : String)
    (hterm : ¬(wins b "x" = true ∨ wins b "o" = true)) (hd0 : d ≠ 0)
    (hd : d ≤ (empty_cells b).length) :
    ∃ c' ∈ empty_cells b, (minimax self b d p).1 =
      (Int.ofNat c'.1, Int.ofNat c'.2, child_score self b (d - 1) p c') := by
  obtain ⟨l1, c', l2, hsplit, heq, _⟩ := minimax_first_opt self d b p hterm hd0 hd
  exact ⟨c', by rw [hsplit]; exact List.mem_append.mpr (Or.inr (List.mem_cons_self _ _)), heq⟩

theorem minimax_score_one (self : String) (d : Nat) (b : Board)
    (hterm : ¬(wins b "x" = true ∨ wins b "o" = true)) (hd0 : d ≠ 0)
    (hd : d ≤ (empty_cells b).length)
    (hwin : ∃ cW ∈ empty_cells b, child_score self b (d - 1) self cW = XInt.fin 1) :
    ∃ c' ∈ empty_cells b, (minimax self b d self).1 =
      (Int.ofNat c'.1, Int.ofNat c'.2, XInt.fin 1) ∧
      child_score self b (d - 1) self c' = XInt.fin 1 := by
  obtain ⟨cW, hcW, hcs⟩ := hwin
  obtain ⟨l1, c', l2, hsplit, heq, hmax, _⟩ :=
    minimax_first_opt self d b self hterm hd0 hd
  obtain ⟨hl1, hl2⟩ := hmax rfl
  have hc'mem : c' ∈ empty_cells b := by
    rw [hsplit]
    exact List.mem_append.mpr (Or.inr (List.mem_cons_self _ _))
  have hd' : d - 1 + 1 ≤ (empty_cells b).length := by omega
  obtain ⟨n, hn, hn1, hn2⟩ := child_score_bounds self (d - 1) b self hd' c' hc'mem
  have hcs' : child_score self b (d - 1) self c' = XInt.fin 1 := by
    have hcases : cW ∈ l1 ∨ cW = c' ∨ cW ∈ l2 := by
      have := hsplit ▸ hcW
      rcases List.mem_append.mp this with h | h
      · exact Or.inl h
      · rcases List.mem_cons.mp h with h | h
        · exact Or.inr (Or.inl h)
        · exact Or.inr (Or.inr h)
    rcases hcases with h | h | h
    · exfalso
      have := hl1 cW h
      rw [hcs, hn] at this
      simp [XInt.bgt] at this
      omega
    · rw [← h, hcs]
    · have := hl2 cW h
      rw [hcs, hn] at this
      simp [XInt.bgt] at this
      rw [hn]
      congr 1
      omega
  exact ⟨c', hc'mem, by rw [heq, hcs'], hcs'⟩

theorem minimax_head_win (self : String) (d : Nat) (b : Board) (W : Nat × Nat)
    (hterm : ¬(wins b "x" = true ∨ wins b "o" = true)) (hd0 : d ≠ 0)
    (hd : d ≤ (empty_cells b).length)
    (hhead : ∃ rest, empty_cells b = W :: rest)
    (hW : child_score self b (d - 1) self W = XInt.fin 1) :
    (minimax self b d self).1 = (Int.ofNat W.1, Int.ofNat W.2, XInt.fin 1) := by
  obtain ⟨rest, hr⟩ := hhead
  obtain ⟨l1, c', l2, hsplit, heq, hmax, _⟩ :=
    minimax_first_opt self d b self hterm hd0 hd
  obtain ⟨hl1, _⟩ := hmax rfl
  have hc'mem : c' ∈ empty_cells b := by
    rw [hsplit]
    exact List.mem_append.mpr (Or.inr (List.mem_cons_self _ _))
  have hd' : d - 1 + 1 ≤ (empty_cells b).length := by omega
  obtain ⟨n, hn, hn1, hn2⟩ := child_score_bounds self (d - 1) b self hd' c' hc'mem
  cases l1 with
  | nil =>
    simp only [List.nil_append] at hsplit
    rw [hr] at hsplit
    have hcW : c' = W := (List.cons.injEq .. ▸ hsplit.symm).1
    rw [heq, hcW, hW]
  | cons a l1' =>
    exfalso
    have haW : a = W := by
      rw [hr] at hsplit
      exact (List.cons.injEq .. ▸ hsplit.symm).1
    have := hl1 a (List.mem_cons_self _ _)
    rw [haW, hW, hn] at this
    simp [XInt.bgt] at this
    omega

/-! ### Placing one marker cannot create a line for the other marker -/

theorem wins_setCell_of_ne (b : Board) (x y : Nat) (v m : String) (hvm : v ≠ m)
    (hw : wins b m = false) : wins (setCell b x y v) m = false := by
  by_contra h
  rw [Bool.not_eq_false] at h
  obtain ⟨L, hL, hall⟩ := (wins_iff _ m).mp h
  have : wins b m = true := by
    refine (wins_iff b m).mpr ⟨L, hL, fun c hc => ?_⟩
    rcases getCell_setCell_or b x y v c.1 c.2 with h' | h'
    · exact absurd (h' ▸ hall c hc) hvm
    · exact h' ▸ hall c hc
  rw [this] at hw
  exact absurd hw (by simp)

/-! ### Claim C6: wins tests exactly the eight canonical lines -/

/-- C6: for every board state and marker, wins(state, marker) returns true
iff at least one of exactly the 8 canonical lines — the 3 rows, the 3
columns and the 2 diagonals (the triples listed in line_coords) — has all
three of its cells equal to that marker; in particular it returns false for
every board in which that marker has no such 3-in-a-row. -/
theorem C6_wins_canonical (b : Board) (m : String) :
    wins b m = true ↔ ∃ L ∈ line_coords, ∀ c ∈ L, getCell b c.1 c.2 = m :=
  wins_iff b m

/-! ### Claim C7: the three cases of evaluate -/

/-- C7: evaluate(state) returns 1 only when self's marker occupies a winning
line, -1 only when the opponent's marker (the other of x/o) occupies a
winning line, and 0 when neither marker has a winning line. -/
theorem C7_evaluate_cases (self : String) (b : Board) :
    (evaluate self b = 1 → wins b self = true) ∧
    (evaluate self b = -1 → wins b (other_marker self) = true) ∧
    (wins b self = false → wins b (other_marker self) = false →
      evaluate self b = 0) := by
  refine ⟨?_, ?_, ?_⟩
  · intro h
    unfold evaluate at h
    by_cases h1 : wins b self = true
    · exact h1
    · rw [if_neg (by simp [Bool.eq_false_iff.mpr h1])] at h
      by_cases h2 : wins b (other_marker self) = true
      · rw [if_pos h2] at h; omega
      · rw [if_neg (by simp [Bool.eq_false_iff.mpr h2])] at h; omega
  · intro h
    unfold evaluate at h
    by_cases h1 : wins b self = true
    · rw [if_pos h1] at h; omega
    · rw [if_neg (by simp [Bool.eq_false_iff.mpr h1])] at h
      by_cases h2 : wins b (other_marker self) = true
      · exact h2
      · rw [if_neg (by simp [Bool.eq_false_iff.mpr h2])] at h; omega
  · intro hs ho
    unfold evaluate
    rw [if_neg (by simp [hs]), if_neg (by simp [ho])]

/-- Witness for C7 at concrete boards: a board won by x, a board won by o
seen from x, and the initial board. -/
theorem C7_evaluate_cases_witness :
    wins [["x", "x", "x"], ["o", "o", "6"], ["7", "8", "9"]] "x" = true ∧
    wins [["o", "o", "o"], ["x", "x", "6"], ["7", "8", "9"]] (other_marker "x") = true ∧
    evaluate "x" initial_board = 0 :=
  ⟨(C7_evaluate_cases "x" _).1 (by decide),
   (C7_evaluate_cases "x" _).2.1 (by decide),
   (C7_evaluate_cases "x" initial_board).2.2 (by decide) (by decide)⟩

/-! ### Claim C8: the search restores the board on every path -/

/-- C8: for every state, depth and player, after minimax returns, the
caller's board is cell-for-cell the board it started with: every
exploratory placement made during the search is undone on every exit path,
so get_move never changes the live board it is given. -/
theorem C8_minimax_restores_board (self : String) (state : Board) (depth : Nat)
    (player : String) : (minimax self state depth player).2 = state :=
  minimax_snd self state depth player

/-! ### Claim C10: make_move marks valid moves and rejects the rest -/

/-- C10: for every board, player symbol and coordinates, if (x, y) is in
empty_cells then make_move marks board[x][y] with the symbol and returns
True; otherwise (out of bounds or already marked) it returns False and
leaves the board unchanged. -/
theorem C10_make_move (b : Board) (sym : String) (x y : Nat) :
    ((x, y) ∈ empty_cells b →
      make_move b sym (x, y) = (true, setCell b x y sym) ∧
      getCell (make_move b sym (x, y)).2 x y = sym) ∧
    ((x, y) ∉ empty_cells b → make_move b sym (x, y) = (false, b)) := by
  constructor
  · intro hmem
    have hv : valid_move b x y = true := List.elem_iff.mpr hmem
    have heq : make_move b sym (x, y) = (true, setCell b x y sym) := by
      unfold make_move
      rw [if_pos hv]
    refine ⟨heq, ?_⟩
    rw [heq]
    obtain ⟨h1, h2, _⟩ := mem_empty_cells.mp hmem
    exact getCell_setCell_self b x y sym h1 h2
  · intro hmem
    have hv : valid_move b x y = false := by
      rw [← Bool.not_eq_true]
      intro hv
      exact hmem (List.elem_iff.mp hv)
    unfold make_move
    rw [if_neg (by simp [hv])]

/-- Witness for C10: marking the valid centre cell of the initial board,
and rejecting an occupied cell. -/
theorem C10_make_move_witness :
    ((1, 1) ∈ empty_cells initial_board ∧
      make_move initial_board "x" (1, 1) =
        (true, setCell initial_board 1 1 "x") ∧
      getCell (make_move initial_board "x" (1, 1)).2 1 1 = "x") ∧
    ((0, 0) ∉ empty_cells [["x", "2", "3"], ["4", "5", "6"], ["7", "8", "9"]] ∧
      make_move [["x", "2", "3"], ["4", "5", "6"], ["7", "8", "9"]] "o" (0, 0) =
        (false, [["x", "2", "3"], ["4", "5", "6"], ["7", "8", "9"]])) :=
  ⟨⟨by decide, (C10_make_move initial_board "x" 1 1).1 (by decide)⟩,
   ⟨by decide, (C10_make_move _ "o" 0 0).2 (by decide)⟩⟩

/-! ### Claim C9: get_move always returns a currently legal move -/

/-- C9: for every board with at least one empty cell and no winning line for
either marker, the pair returned by get_move (the first two components of
the minimax result, or the random opening cell when all 9 cells are empty,
the random draw being modelled by an index below the length of empty_cells)
is an element of empty_cells — never the sentinel (-1, -1). -/
theorem C9_get_move_legal (self : String) (b : Board) (pick : Nat)
    (hne : empty_cells b ≠ [])
    (hwx : wins b "x" = false) (hwo : wins b "o" = false)
    (hpick : pick < (empty_cells b).length) :
    ∃ c ∈ empty_cells b, get_move self b pick = (Int.ofNat c.1, Int.ofNat c.2) ∧
      get_move self b pick ≠ (-1, -1) := by
  unfold get_move
  by_cases h9 : (empty_cells b).length = 9
  · rw [if_pos h9]
    refine ⟨(empty_cells b).getD pick (0, 0), ?_, rfl, ?_⟩
    · rw [List.getD_eq_getElem?_getD, List.getElem?_eq_getElem hpick]
      exact List.getElem_mem hpick
    · intro h
      rw [Prod.mk.injEq] at h
      have h1 := h.1
      simp at h1
  · rw [if_neg h9]
    have hd0 : (empty_cells b).length ≠ 0 :=
      fun h => hne (List.length_eq_zero.mp h)
    obtain ⟨c', hc', heq⟩ := minimax_result_cell self ((empty_cells b).length) b
      self (by simp [hwx, hwo]) hd0 le_rfl
    refine ⟨c', hc', ?_, ?_⟩
    · show ((minimax self b (empty_cells b).length self).1.1,
        (minimax self b (empty_cells b).length self).1.2.1) = _
      rw [heq]
    · show ((minimax self b (empty_cells b).length self).1.1,
        (minimax self b (empty_cells b).length self).1.2.1) ≠ _
      rw [heq]
      intro h
      rw [Prod.mk.injEq] at h
      have h1 := h.1
      simp at h1

/-- Witness for C9 on the board [[x,x,3],[o,o,6],[7,8,9]] with x to move. -/
theorem C9_get_move_legal_witness :
    (empty_cells [["x", "x", "3"], ["o", "o", "6"], ["7", "8", "9"]] ≠ [] ∧
      wins [["x", "x", "3"], ["o", "o", "6"], ["7", "8", "9"]] "x" = false ∧
      wins [["x", "x", "3"], ["o", "o", "6"], ["7", "8", "9"]] "o" = false ∧
      0 < (empty_cells [["x", "x", "3"], ["o", "o", "6"], ["7", "8", "9"]]).length) ∧
    ∃ c ∈ empty_cells [["x", "x", "3"], ["o", "o", "6"], ["7", "8", "9"]],
      get_move "x" [["x", "x", "3"], ["o", "o", "6"], ["7", "8", "9"]] 0 =
        (Int.ofNat c.1, Int.ofNat c.2) ∧
      get_move "x" [["x", "x", "3"], ["o", "o", "6"], ["7", "8", "9"]] 0 ≠ (-1, -1) :=
  ⟨⟨by decide, by decide, by decide, by decide⟩,
   C9_get_move_legal "x" _ 0 (by decide) (by decide) (by decide) (by decide)⟩

/-! ### Claim C4: terminal returns and the sentinel row -/

/-- A full-depth-degenerate position: a drawn board with only cells (2,1)
and (2,2) empty, in which no fill-in produces a line. -/
def deg_board : Board := [["x", "x", "o"], ["o", "o", "x"], ["x", "8", "9"]]

/-- Counterexample to C4 as stated: the call minimax(deg_board, 3, x) with
self = x is not terminal (depth is 3 and no winning line exists), yet it
returns row -1 (the whole result is [-1, -1, -infinity]), because the depth
exceeds the number of empty cells and every branch bottoms out in the
degenerate non-terminal full-board case. -/
theorem C4_counterexample :
    ¬(3 = 0 ∨ wins deg_board "x" = true ∨ wins deg_board "o" = true) ∧
    (minimax "x" deg_board 3 "x").1 = (-1, -1, XInt.negInf) := by
  constructor
  · decide
  · decide

/-- C4 amended: a call with depth = 0 or a winning line on the state
returns exactly [-1, -1, evaluate(state)] with the state unchanged; and a
non-terminal call whose depth does not exceed the number of empty cells
(which holds for every call reached from get_move, where depth starts as
len(empty_cells) and shrinks in step with it) returns the coordinates of
some empty cell, never row -1. -/
theorem C4_terminal_and_cells (self : String) (state : Board) (depth : Nat)
    (player : String) :
    ((depth = 0 ∨ wins state "x" = true ∨ wins state "o" = true) →
      minimax self state depth player =
        ((-1, -1, XInt.fin (evaluate self state)), state)) ∧
    (¬(depth = 0 ∨ wins state "x" = true ∨ wins state "o" = true) →
      depth ≤ (empty_cells state).length →
      ∃ c ∈ empty_cells state,
        (minimax self state depth player).1.1 = Int.ofNat c.1 ∧
        (minimax self state depth player).1.2.1 = Int.ofNat c.2) := by
  constructor
  · intro h
    rw [minimax_eq, if_pos h]
  · intro hterm hd
    have hd0 : depth ≠ 0 := fun h => hterm (Or.inl h)
    have hterm' : ¬(wins state "x" = true ∨ wins state "o" = true) :=
      fun h => hterm (Or.inr h)
    obtain ⟨c', hc', heq⟩ := minimax_result_cell self depth state player hterm' hd0 hd
    exact ⟨c', hc', by rw [heq], by rw [heq]⟩

/-- Witness for C4 amended: a terminal call on a won board, and a
non-terminal call on deg_board at its true depth 2. -/
theorem C4_terminal_and_cells_witness :
    minimax "x" [["x", "x", "x"], ["o", "o", "6"], ["7", "8", "9"]] 5 "o" =
      ((-1, -1, XInt.fin (evaluate "x" [["x", "x", "x"], ["o", "o", "6"], ["7", "8", "9"]])),
        [["x", "x", "x"], ["o", "o", "6"], ["7", "8", "9"]]) ∧
    ∃ c ∈ empty_cells deg_board,
      (minimax "x" deg_board 2 "x").1.1 = Int.ofNat c.1 ∧
      (minimax "x" deg_board 2 "x").1.2.1 = Int.ofNat c.2 :=
  ⟨(C4_terminal_and_cells "x" _ 5 "o").1 (by decide),
   (C4_terminal_and_cells "x" deg_board 2 "x").2 (by decide) (by decide)⟩

/-! ### Claim C5: examination order and the first-seen tie-break -/

/-- Counterexample to C5 as stated: minimax(deg_board, 5, x) with self = x
is a non-terminal call, both empty cells are examined and carry the equal
optimal score -infinity (the depth exceeds the cell count, so both
children bottom out in the degenerate full-board case), yet the returned
candidate is none of the examined cells: the first-seen tie-break clause
fails for calls whose depth exceeds the number of empty cells. -/
theorem C5_counterexample :
    ¬(5 = 0 ∨ wins deg_board "x" = true ∨ wins deg_board "o" = true) ∧
    empty_cells deg_board = [(2, 1), (2, 2)] ∧
    child_score "x" deg_board 4 "x" (2, 1) = XInt.negInf ∧
    child_score "x" deg_board 4 "x" (2, 2) = XInt.negInf ∧
    (minimax "x" deg_board 5 "x").1 = (-1, -1, XInt.negInf) ∧
    ∀ c ∈ empty_cells deg_board,
      (minimax "x" deg_board 5 "x").1 ≠
        (Int.ofNat c.1, Int.ofNat c.2, child_score "x" deg_board 4 "x" c) := by
  refine ⟨by decide, by decide, by decide, by decide, by decide, by decide⟩

/-- C5 amended: empty_cells enumerates candidates in strict row-major
order, and for every non-terminal call whose depth does not exceed the
number of empty cells, the result splits the candidate list as
l1 ++ returned :: l2 where the returned cell scores strictly better than
every earlier candidate and no later candidate scores strictly better than
it (maximizing when player is self, minimizing otherwise): among
equally-scored optimal moves the earliest in row-major order is returned. -/
theorem C5_order_and_first_opt :
    (∀ b : Board, (empty_cells b).Pairwise rowMajorLt) ∧
    (∀ (self : String) (b : Board) (d : Nat) (p : String),
      ¬(d = 0 ∨ wins b "x" = true ∨ wins b "o" = true) →
      d ≤ (empty_cells b).length →
      ∃ l1 c' l2, empty_cells b = l1 ++ c' :: l2 ∧
        (minimax self b d p).1 =
          (Int.ofNat c'.1, Int.ofNat c'.2, child_score self b (d - 1) p c') ∧
        ((p = self →
          (∀ c ∈ l1, XInt.bgt (child_score self b (d - 1) p c')
            (child_score self b (d - 1) p c) = true) ∧
          (∀ c ∈ l2, XInt.bgt (child_score self b (d - 1) p c)
            (child_score self b (d - 1) p c') = false)) ∧
         (¬p = self →
          (∀ c ∈ l1, XInt.blt (child_score self b (d - 1) p c')
            (child_score self b (d - 1) p c) = true) ∧
          (∀ c ∈ l2, XInt.blt (child_score self b (d - 1) p c)
            (child_score self b (d - 1) p c') = false)))) :=
  ⟨empty_cells_pairwise,
   fun self b d p hterm hd =>
     minimax_first_opt self d b p (fun h => hterm (Or.inr h))
       (fun h0 => hterm (Or.inl h0)) hd⟩

/-- Witness for C5 amended applied to deg_board at its true depth 2. -/
theorem C5_order_and_first_opt_witness :
    ∃ l1 c' l2, empty_cells deg_board = l1 ++ c' :: l2 ∧
      (minimax "x" deg_board 2 "x").1 =
        (Int.ofNat c'.1, Int.ofNat c'.2, child_score "x" deg_board (2 - 1) "x" c') ∧
      (("x" = "x" →
        (∀ c ∈ l1, XInt.bgt (child_score "x" deg_board (2 - 1) "x" c')
          (child_score "x" deg_board (2 - 1) "x" c) = true) ∧
        (∀ c ∈ l2, XInt.bgt (child_score "x" deg_board (2 - 1) "x" c)
          (child_score "x" deg_board (2 - 1) "x" c') = false)) ∧
       (¬"x" = "x" →
        (∀ c ∈ l1, XInt.blt (child_score "x" deg_board (2 - 1) "x" c')
          (child_score "x" deg_board (2 - 1) "x" c) = true) ∧
        (∀ c ∈ l2, XInt.blt (child_score "x" deg_board (2 - 1) "x" c)
          (child_score "x" deg_board (2 - 1) "x" c') = false))) :=
  C5_order_and_first_opt.2 "x" deg_board 2 "x" (by decide) (by decide)

/-! ### Claim C2: taking the win -/

theorem line_cells_lt : ∀ L ∈ line_coords, ∀ c ∈ L, c.1 < 3 ∧ c.2 < 3 := by decide

theorem row_len_three {b : Board} (h3 : b.length = 3)
    (hr : ∀ r ∈ b, r.length = 3) {x : Nat} (hx : x < 3) :
    (b.getD x []).length = 3 := by
  have hx' : x < b.length := by omega
  rw [List.getD_eq_getElem?_getD, List.getElem?_eq_getElem hx']
  exact hr _ (List.getElem_mem hx')

theorem line_cell_mem_empty {b : Board} (h3 : b.length = 3)
    (hr : ∀ r ∈ b, r.length = 3) {L : List (Nat × Nat)} {W : Nat × Nat}
    (hL : L ∈ line_coords) (hW : W ∈ L)
    (hWe : pyIsDigit (getCell b W.1 W.2) = true) : W ∈ empty_cells b := by
  obtain ⟨hx, hy⟩ := line_cells_lt L hL W hW
  refine mem_empty_cells.mpr ⟨by omega, ?_, hWe⟩
  rw [row_len_three h3 hr hx]
  omega

/-- Marking the empty third cell of a line whose other two cells already
hold self's marker completes the line: the resulting child is terminal and
scores 1 at any remaining depth. -/
theorem completing_cell_score {b : Board} {self : String} {L : List (Nat × Nat)}
    {W : Nat × Nat} (h3 : b.length = 3) (hr : ∀ r ∈ b, r.length = 3)
    (hself : self = "x" ∨ self = "o") (hL : L ∈ line_coords) (hW : W ∈ L)
    (hWe : pyIsDigit (getCell b W.1 W.2) = true)
    (htwo : ∀ c ∈ L, c ≠ W → getCell b c.1 c.2 = self) :
    ∀ d' : Nat, child_score self b d' self W = XInt.fin 1 := by
  intro d'
  have hwinW : wins (setCell b W.1 W.2 self) self = true := by
    refine (wins_iff _ self).mpr ⟨L, hL, fun c hc => ?_⟩
    by_cases hcW : c = W
    · subst hcW
      obtain ⟨hx, hy⟩ := line_cells_lt L hL c hc
      refine getCell_setCell_self b c.1 c.2 self (by omega) ?_
      rw [row_len_three h3 hr hx]
      omega
    · rw [getCell_setCell_ne b W.1 W.2 self c.1 c.2
        (fun ⟨e1, e2⟩ => hcW (Prod.ext e1 e2))]
      exact htwo c hc hcW
  have hterm : wins (setCell b W.1 W.2 self) "x" = true ∨
      wins (setCell b W.1 W.2 self) "o" = true := by
    rcases hself with rfl | rfl
    · exact Or.inl hwinW
    · exact Or.inr hwinW
  unfold child_score
  rw [minimax_eq, if_pos (Or.inr hterm)]
  have : evaluate self (setCell b W.1 W.2 self) = 1 := by
    unfold evaluate
    rw [if_pos hwinW]
  rw [this]

/-- The board of the concrete C2 scenario, [[x,x,_],[o,o,_],[_,_,_]], with
the empty cells holding their digit labels. -/
def scen_board : Board := [["x", "x", "3"], ["o", "o", "6"], ["7", "8", "9"]]

/-- A board refuting C2 as stated: x is the only marker that could still
complete a line, the bottom row [(2,0),(2,1),(2,2)] holds two x markers
with its third cell (2,2) empty, yet get_move does not return (2,2): the
earlier cell (0,1) also completes a line for x and the first-seen
tie-break prefers it. -/
def cx2_board : Board := [["x", "2", "3"], ["o", "x", "x"], ["x", "x", "9"]]

/-- Counterexample to C2 as stated, at cx2_board with self = x: all the
premises of the claim hold for the line [(2,0),(2,1),(2,2)] with winning
cell (2,2), but get_move returns (0,1), not (2,2). -/
theorem C2_counterexample :
    (∃ L ∈ line_coords, ∀ c ∈ L,
      getCell cx2_board c.1 c.2 = "x" ∨ pyIsDigit (getCell cx2_board c.1 c.2) = true) ∧
    (∀ L ∈ line_coords, ¬ ∀ c ∈ L,
      getCell cx2_board c.1 c.2 = other_marker "x" ∨
        pyIsDigit (getCell cx2_board c.1 c.2) = true) ∧
    [(2, 0), (2, 1), (2, 2)] ∈ line_coords ∧
    (∀ c ∈ [(2, 0), (2, 1), (2, 2)], c ≠ ((2 : Nat), (2 : Nat)) →
      getCell cx2_board c.1 c.2 = "x") ∧
    pyIsDigit (getCell cx2_board 2 2) = true ∧
    wins cx2_board "x" = false ∧ wins cx2_board "o" = false ∧
    get_move "x" cx2_board 0 ≠ (Int.ofNat 2, Int.ofNat 2) := by
  refine ⟨by decide, by decide, by decide, by decide, by decide, by decide,
    by decide, by decide⟩

/-- C2 amended: under the premises of the claim (self is the only marker
that could still complete a line, and a line holds two self markers with
its empty third cell W), with no winning line on the board yet and the
board not entirely empty, get_move returns a move whose minimax score is 1
— a move that still forces the win — though not necessarily the cell W
itself; and on the concrete scenario [[x,x,_],[o,o,_],[_,_,_]] with self =
x it does return (0, 2). -/
theorem C2_win_preference :
    (∀ (b : Board) (self : String) (pick : Nat) (L : List (Nat × Nat))
      (W : Nat × Nat),
      b.length = 3 → (∀ r ∈ b, r.length = 3) →
      (self = "x" ∨ self = "o") →
      (∃ L' ∈ line_coords, ∀ c ∈ L',
        getCell b c.1 c.2 = self ∨ pyIsDigit (getCell b c.1 c.2) = true) →
      (∀ L' ∈ line_coords, ¬ ∀ c ∈ L',
        getCell b c.1 c.2 = other_marker self ∨
          pyIsDigit (getCell b c.1 c.2) = true) →
      L ∈ line_coords → W ∈ L →
      pyIsDigit (getCell b W.1 W.2) = true →
      (∀ c ∈ L, c ≠ W → getCell b c.1 c.2 = self) →
      wins b "x" = false → wins b "o" = false →
      (empty_cells b).length ≠ 9 →
      ∃ c ∈ empty_cells b,
        get_move self b pick = (Int.ofNat c.1, Int.ofNat c.2) ∧
        child_score self b ((empty_cells b).length - 1) self c = XInt.fin 1) ∧
    get_move "x" scen_board 0 = (Int.ofNat 0, Int.ofNat 2) := by
  constructor
  · intro b self pick L W h3 hr hself _ _ hL hW hWe htwo hnx hno h9
    have hWmem : W ∈ empty_cells b := line_cell_mem_empty h3 hr hL hW hWe
    have hd0 : (empty_cells b).length ≠ 0 := by
      intro h0
      rw [List.length_eq_zero.mp h0] at hWmem
      exact absurd hWmem (List.not_mem_nil W)
    have hterm : ¬(wins b "x" = true ∨ wins b "o" = true) := by simp [hnx, hno]
    have hcsW := completing_cell_score h3 hr hself hL hW hWe htwo
      ((empty_cells b).length - 1)
    obtain ⟨c', hc', heq, hcs⟩ := minimax_score_one self ((empty_cells b).length)
      b hterm hd0 le_rfl ⟨W, hWmem, hcsW⟩
    refine ⟨c', hc', ?_, hcs⟩
    unfold get_move
    rw [if_neg h9]
    show ((minimax self b (empty_cells b).length self).1.1,
      (minimax self b (empty_cells b).length self).1.2.1) = _
    rw [heq]
  · have h3 : scen_board.length = 3 := by decide
    have hr : ∀ r ∈ scen_board, r.length = 3 := by decide
    have hterm : ¬(wins scen_board "x" = true ∨ wins scen_board "o" = true) := by decide
    have hhead : ∃ rest, empty_cells scen_board = (0, 2) :: rest :=
      ⟨[(1, 2), (2, 0), (2, 1), (2, 2)], by decide⟩
    have hW : child_score "x" scen_board ((empty_cells scen_board).length - 1) "x"
        (0, 2) = XInt.fin 1 :=
      completing_cell_score h3 hr (Or.inl rfl)
        (show [(0, 0), (0, 1), (0, 2)] ∈ line_coords by decide)
        (show ((0 : Nat), (2 : Nat)) ∈ [(0, 0), (0, 1), (0, 2)] by decide)
        (by decide) (by decide) _
    have hres := minimax_head_win "x" ((empty_cells scen_board).length) scen_board
      (0, 2) hterm (by decide) le_rfl hhead hW
    unfold get_move
    rw [if_neg (by decide)]
    show ((minimax "x" scen_board (empty_cells scen_board).length "x").1.1,
      (minimax "x" scen_board (empty_cells scen_board).length "x").1.2.1) = _
    rw [hres]

/-- Witness for C2 amended, applied at cx2_board with the bottom-row line
and winning cell (2,2): get_move returns some empty cell whose move scores
1 (it is in fact (0,1)). -/
theorem C2_win_preference_witness :
    ∃ c ∈ empty_cells cx2_board,
      get_move "x" cx2_board 0 = (Int.ofNat c.1, Int.ofNat c.2) ∧
      child_score "x" cx2_board ((empty_cells cx2_board).length - 1) "x" c =
        XInt.fin 1 :=
  C2_win_preference.1 cx2_board "x" 0 [(2, 0), (2, 1), (2, 2)] (2, 2)
    (by decide) (by decide) (Or.inl rfl) ⟨[(2, 0), (2, 1), (2, 2)], by decide, by decide⟩
    (by decide) (by decide) (by decide) (by decide) (by decide)
    (by decide) (by decide) (by decide)

/-! ### Claim C3: blocking the opponent -/

theorem two_mem_le_length {α : Type} {l : List α} {a b : α} (ha : a ∈ l)
    (hb : b ∈ l) (hab : a ≠ b) : 2 ≤ l.length := by
  cases l with
  | nil => exact absurd ha (List.not_mem_nil a)
  | cons x t =>
    cases t with
    | nil =>
      rw [List.mem_singleton] at ha hb
      exact absurd (ha.trans hb.symm) hab
    | cons y t' => simp [List.length_cons]

theorem other_marker_ne {self : String} (hself : self = "x" ∨ self = "o") :
    ¬(other_marker self = self) := by
  rcases hself with rfl | rfl <;> decide

theorem other_marker_other {self : String} (hself : self = "x" ∨ self = "o") :
    other_marker (other_marker self) = self := by
  rcases hself with rfl | rfl <;> decide

/-- In a non-terminal minimizing call in which the minimizer has an
immediate winning cell, the returned score is -1: the minimizer takes the
win (score -1 is the least possible), so every branch in which the
opponent of self may answer with a completed line is scored lost. -/
theorem minimax_min_forced_loss (self : String) (b' : Board) (d'' : Nat)
    (W : Nat × Nat) (hself : self = "x" ∨ self = "o")
    (hterm : ¬(wins b' "x" = true ∨ wins b' "o" = true))
    (hd0 : d'' ≠ 0) (hd : d'' ≤ (empty_cells b').length)
    (hWmem : W ∈ empty_cells b')
    (hwin : wins (setCell b' W.1 W.2 (other_marker self)) (other_marker self) = true) :
    (minimax self b' d'' (other_marker self)).1.2.2 = XInt.fin (-1) := by
  have hps := other_marker_ne hself
  obtain ⟨l1, c'', l2, hsplit, heq, _, hmin⟩ :=
    minimax_first_opt self d'' b' (other_marker self) hterm hd0 hd
  obtain ⟨hl1, hl2⟩ := hmin hps
  have hselfb : wins b' self = false := by
    rcases hself with rfl | rfl
    · cases hx : wins b' "x" with
      | false => rfl
      | true => exact absurd (Or.inl hx) hterm
    · cases hx : wins b' "o" with
      | false => rfl
      | true => exact absurd (Or.inr hx) hterm
  have hcsW : child_score self b' (d'' - 1) (other_marker self) W = XInt.fin (-1) := by
    unfold child_score
    rw [other_marker_other hself]
    have hterm2 : wins (setCell b' W.1 W.2 (other_marker self)) "x" = true ∨
        wins (setCell b' W.1 W.2 (other_marker self)) "o" = true := by
      rcases hself with rfl | rfl
      · exact Or.inr hwin
      · exact Or.inl hwin
    rw [minimax_eq, if_pos (Or.inr hterm2)]
    have hgx : wins (setCell b' W.1 W.2 (other_marker self)) self = false :=
      wins_setCell_of_ne b' W.1 W.2 (other_marker self) self hps hselfb
    have hev : evaluate self (setCell b' W.1 W.2 (other_marker self)) = -1 := by
      unfold evaluate
      rw [if_neg (by simp [hgx]), if_pos hwin]
    rw [hev]
  have hc''mem : c'' ∈ empty_cells b' := by
    rw [hsplit]
    exact List.mem_append.mpr (Or.inr (List.mem_cons_self _ _))
  obtain ⟨n, hn, hn1, hn2⟩ := child_score_bounds self (d'' - 1) b'
    (other_marker self) (by omega) c'' hc''mem
  have hWpos : W ∈ l1 ∨ W = c'' ∨ W ∈ l2 := by
    have := hsplit ▸ hWmem
    rcases List.mem_append.mp this with h | h
    · exact Or.inl h
    · rcases List.mem_cons.mp h with h | h
      · exact Or.inr (Or.inl h)
      · exact Or.inr (Or.inr h)
  have hfin : child_score self b' (d'' - 1) (other_marker self) c'' = XInt.fin (-1) := by
    rcases hWpos with h | h | h
    · exfalso
      have hbad := hl1 W h
      rw [hcsW, hn] at hbad
      simp [XInt.blt, XInt.bgt] at hbad
      omega
    · rw [← h]
      exact hcsW
    · have hbad := hl2 W h
      rw [hcsW, hn] at hbad
      simp [XInt.blt, XInt.bgt] at hbad
      rw [hn]
      congr 1
      omega
  rw [heq]
  exact hfin

/-- A board refuting C3 as stated: o threatens (1,2) (and also (2,1) and
(0,2)), x to move has no immediate win and cannot cover all threats, so
every move scores -1 and the first-seen tie-break returns the first empty
cell (0,1) instead of a blocking cell. -/
def cx3_board : Board := [["x", "2", "3"], ["o", "o", "6"], ["o", "8", "o"]]

/-- Counterexample to C3 as stated, at cx3_board with self = x: the
opponent o holds the line [(1,0),(1,1),(1,2)] with two markers and empty
third cell (1,2), x has no immediate winning move, yet get_move does not
return the blocking cell (1,2). -/
theorem C3_counterexample :
    [(1, 0), (1, 1), (1, 2)] ∈ line_coords ∧
    (∀ c ∈ [(1, 0), (1, 1), (1, 2)], c ≠ ((1 : Nat), (2 : Nat)) →
      getCell cx3_board c.1 c.2 = other_marker "x") ∧
    pyIsDigit (getCell cx3_board 1 2) = true ∧
    wins cx3_board "x" = false ∧ wins cx3_board "o" = false ∧
    (∀ c ∈ empty_cells cx3_board,
      wins (setCell cx3_board c.1 c.2 "x") "x" = false) ∧
    get_move "x" cx3_board 0 ≠ (Int.ofNat 1, Int.ofNat 2) := by
  refine ⟨by decide, by decide, by decide, by decide, by decide, by decide,
    by decide⟩

/-- C3 amended: when the opponent holds a line with two markers and empty
third cell W, self to move has no immediate winning move, and some move of
self still achieves a non-negative minimax score (the position is not
already lost), get_move returns the blocking cell W; and when self does
have an immediate winning move available, get_move instead returns a move
whose minimax score is 1 (its own win takes priority). -/
theorem C3_blocking :
    (∀ (b : Board) (self : String) (pick : Nat) (L : List (Nat × Nat))
      (W : Nat × Nat) (sc : Int),
      b.length = 3 → (∀ r ∈ b, r.length = 3) →
      (self = "x" ∨ self = "o") →
      L ∈ line_coords → W ∈ L →
      pyIsDigit (getCell b W.1 W.2) = true →
      (∀ c ∈ L, c ≠ W → getCell b c.1 c.2 = other_marker self) →
      wins b "x" = false → wins b "o" = false →
      (∀ c ∈ empty_cells b, wins (setCell b c.1 c.2 self) self = false) →
      (empty_cells b).length ≠ 9 →
      (minimax self b (empty_cells b).length self).1.2.2 = XInt.fin sc →
      0 ≤ sc →
      get_move self b pick = (Int.ofNat W.1, Int.ofNat W.2)) ∧
    (∀ (b : Board) (self : String) (pick : Nat) (L : List (Nat × Nat))
      (W : Nat × Nat) (L2 : List (Nat × Nat)) (W2 : Nat × Nat),
      b.length = 3 → (∀ r ∈ b, r.length = 3) →
      (self = "x" ∨ self = "o") →
      L ∈ line_coords → W ∈ L →
      pyIsDigit (getCell b W.1 W.2) = true →
      (∀ c ∈ L, c ≠ W → getCell b c.1 c.2 = other_marker self) →
      L2 ∈ line_coords → W2 ∈ L2 →
      pyIsDigit (getCell b W2.1 W2.2) = true →
      (∀ c ∈ L2, c ≠ W2 → getCell b c.1 c.2 = self) →
      wins b "x" = false → wins b "o" = false →
      (empty_cells b).length ≠ 9 →
      ∃ c ∈ empty_cells b,
        get_move self b pick = (Int.ofNat c.1, Int.ofNat c.2) ∧
        child_score self b ((empty_cells b).length - 1) self c = XInt.fin 1) := by
  constructor
  · intro b self pick L W sc h3 hr hself hL hW hWe htwo hnx hno hnowin h9 hsc hsc0
    have hWmem : W ∈ empty_cells b := line_cell_mem_empty h3 hr hL hW hWe
    have hd0 : (empty_cells b).length ≠ 0 := by
      intro h0
      rw [List.length_eq_zero.mp h0] at hWmem
      exact absurd hWmem (List.not_mem_nil W)
    have hterm : ¬(wins b "x" = true ∨ wins b "o" = true) := by simp [hnx, hno]
    have hps := other_marker_ne hself
    -- every non-blocking candidate is scored -1
    have hlost : ∀ c ∈ empty_cells b, c ≠ W →
        child_score self b ((empty_cells b).length - 1) self c = XInt.fin (-1) := by
      intro c hc hcW
      have hlen2 : 2 ≤ (empty_cells b).length := two_mem_le_length hc hWmem hcW
      have hcx := (mem_empty_cells.mp hc).2.2
      set bc := setCell b c.1 c.2 self with hbc
      have hbc3 : bc.length = 3 := by rw [hbc, setCell_length]; exact h3
      have hbcx : wins bc self = false := hnowin c hc
      have hbco : wins bc (other_marker self) = false := by
        apply wins_setCell_of_ne _ _ _ _ _ (fun he => hps he.symm)
        rcases hself with rfl | rfl
        · exact hno
        · exact hnx
      have hbcterm : ¬(wins bc "x" = true ∨ wins bc "o" = true) := by
        have hbco' := hbco
        rcases hself with rfl | rfl
        · simp [other_marker] at hbco'
          simp [hbcx, hbco']
        · simp [other_marker] at hbco'
          simp [hbcx, hbco']
      have hWbc : W ∈ empty_cells bc := by
        refine mem_empty_cells.mpr ⟨?_, ?_, ?_⟩
        · rw [hbc, setCell_length]
          exact (mem_empty_cells.mp hWmem).1
        · rw [hbc, setCell_row_length]
          exact (mem_empty_cells.mp hWmem).2.1
        · rw [hbc, getCell_setCell_ne b c.1 c.2 self W.1 W.2
            (fun ⟨e1, e2⟩ => hcW (Prod.ext e1 e2).symm)]
          exact (mem_empty_cells.mp hWmem).2.2
      have hwinW : wins (setCell bc W.1 W.2 (other_marker self))
          (other_marker self) = true := by
        refine (wins_iff _ _).mpr ⟨L, hL, fun c2 hc2 => ?_⟩
        by_cases hc2W : c2 = W
        · subst hc2W
          obtain ⟨hx2, hy2⟩ := line_cells_lt L hL c2 hc2
          refine getCell_setCell_self bc c2.1 c2.2 (other_marker self)
            (by omega) ?_
          rw [hbc, setCell_row_length, row_len_three h3 hr hx2]
          omega
        · rw [getCell_setCell_ne bc W.1 W.2 (other_marker self) c2.1 c2.2
            (fun ⟨e1, e2⟩ => hc2W (Prod.ext e1 e2))]
          have hc2c : c2 ≠ c := by
            intro he
            have hmark := htwo c2 hc2 hc2W
            rw [he] at hmark
            rw [hmark] at hcx
            rcases hself with rfl | rfl
            · exact absurd hcx (by decide)
            · exact absurd hcx (by decide)
          rw [hbc, getCell_setCell_ne b c.1 c.2 self c2.1 c2.2
            (fun ⟨e1, e2⟩ => hc2c (Prod.ext e1 e2))]
          exact htwo c2 hc2 hc2W
      have hlenbc : (empty_cells b).length - 1 ≤ (empty_cells bc).length := by
        have := length_empty_cells_setCell b c.1 c.2 self
        rw [← hbc] at this
        omega
      unfold child_score
      exact minimax_min_forced_loss self bc ((empty_cells b).length - 1) W hself
        hbcterm (by omega) hlenbc hWbc hwinW
    -- the returned candidate must therefore be W
    obtain ⟨l1, c', l2, hsplit, heq, _, _⟩ :=
      minimax_first_opt self ((empty_cells b).length) b self hterm hd0 le_rfl
    have hc'mem : c' ∈ empty_cells b := by
      rw [hsplit]
      exact List.mem_append.mpr (Or.inr (List.mem_cons_self _ _))
    have hc'W : c' = W := by
      by_contra hne
      have := hlost c' hc'mem hne
      rw [heq] at hsc
      rw [this] at hsc
      have : sc = -1 := by
        have := hsc
        simp at this
        omega
      omega
    unfold get_move
    rw [if_neg h9]
    show ((minimax self b (empty_cells b).length self).1.1,
      (minimax self b (empty_cells b).length self).1.2.1) = _
    rw [heq, hc'W]
  · intro b self pick L W L2 W2 h3 hr hself _ _ _ _ hL2 hW2 hW2e htwo2 hnx hno h9
    have hW2mem : W2 ∈ empty_cells b := line_cell_mem_empty h3 hr hL2 hW2 hW2e
    have hd0 : (empty_cells b).length ≠ 0 := by
      intro h0
      rw [List.length_eq_zero.mp h0] at hW2mem
      exact absurd hW2mem (List.not_mem_nil W2)
    have hterm : ¬(wins b "x" = true ∨ wins b "o" = true) := by simp [hnx, hno]
    have hcsW2 := completing_cell_score h3 hr hself hL2 hW2 hW2e htwo2
      ((empty_cells b).length - 1)
    obtain ⟨c', hc', heq, hcs⟩ := minimax_score_one self ((empty_cells b).length)
      b hterm hd0 le_rfl ⟨W2, hW2mem, hcsW2⟩
    refine ⟨c', hc', ?_, hcs⟩
    unfold get_move
    rw [if_neg h9]
    show ((minimax self b (empty_cells b).length self).1.1,
      (minimax self b (empty_cells b).length self).1.2.1) = _
    rw [heq]

/-- Witness for C3 amended: on [["o","x","x"],["x","o","o"],[_,_,_]] with x
to move, o threatens the diagonal at (2,2) and the block is returned; and
on the scenario board [[x,x,_],[o,o,_],[_,_,_]], where x has its own
immediate win, a winning move of score 1 is returned instead. -/
theorem C3_blocking_witness :
    get_move "x" [["o", "x", "x"], ["x", "o", "o"], ["7", "8", "9"]] 0 =
      (Int.ofNat 2, Int.ofNat 2) ∧
    ∃ c ∈ empty_cells scen_board,
      get_move "x" scen_board 0 = (Int.ofNat c.1, Int.ofNat c.2) ∧
      child_score "x" scen_board ((empty_cells scen_board).length - 1) "x" c =
        XInt.fin 1 :=
  ⟨C3_blocking.1 [["o", "x", "x"], ["x", "o", "o"], ["7", "8", "9"]] "x" 0
      [(0, 0), (1, 1), (2, 2)] (2, 2) 0 (by decide) (by decide) (Or.inl rfl)
      (by decide) (by decide) (by decide) (by decide) (by decide) (by decide)
      (by decide) (by decide) (by decide) (by decide),
   C3_blocking.2 scen_board "x" 0 [(1, 0), (1, 1), (1, 2)] (1, 2)
      [(0, 0), (0, 1), (0, 2)] (0, 2) (by decide) (by decide) (Or.inl rfl)
      (by decide) (by decide) (by decide) (by decide) (by decide) (by decide)
      (by decide) (by decide) (by decide) (by decide) (by decide)⟩

/-! ### Claim C1: a certified value table for the 3x3 game

The self-play games are too large to evaluate the search directly inside
proofs, so the game is solved once into a table of position values (from
x's perspective, encoded value + 1 in two bits per position, indexed by the
base-3 code of the nine cells), the table is checked in one kernel
computation to satisfy the Bellman equations of the game, and minimax is
proved to return exactly the table value at full depth. -/

/-- A completed line in a 9-bit cell mask (bit 3x + y holds cell (x, y)),
listing the same eight lines as wins. -/
def mwins (m : Nat) : Bool :=
  (m.testBit 0 && m.testBit 1 && m.testBit 2) ||
  (m.testBit 3 && m.testBit 4 && m.testBit 5) ||
  (m.testBit 6 && m.testBit 7 && m.testBit 8) ||
  (m.testBit 0 && m.testBit 3 && m.testBit 6) ||
  (m.testBit 1 && m.testBit 4 && m.testBit 7) ||
  (m.testBit 2 && m.testBit 5 && m.testBit 8) ||
  (m.testBit 0 && m.testBit 4 && m.testBit 8) ||
  (m.testBit 6 && m.testBit 4 && m.testBit 2)

def pow3 (p : Nat) : Nat := 3 ^ p

/-- The solved game: two bits per position, at offset twice the base-3 code
of the position, holding the x-perspective game value plus one. -/
def TBL : Nat := 157224550560849028981234971704116774094464414860798925391112950562863049701519905257761441728613715259802059140481598221615399451810699437700059033657575927818022367144916395245375861505759033886197681599908656079019354012435105215352727327939256244795345372593026410981295725646263966103344857044522778352412968839003230547889701128783466228230132801688319788745303331275384203473499765414329022598092376383123122304325605661535899215841824527967510617094903394978183766420796387838941261574936765032245150659701882837111318735318357669701885366853114303394036740147711390036834890612977511546279632262567341896094568427977975918473111700621574879702742584911531259380617231189841469779694112866656070107631131696221560718596762948019644579484537930466694843988246368765094175287790552917321733228256423446140375512434514823176501253549593099550680314012894780804709514436375951341550637633452664437825780364327301606989766298535763111822836049152604818862073139574712379735900403065030888562764611569869481341881266535495723626130579566840965005225074850061980398358680715723946455639177237812630646485365569215705099722966369720909357232604388444661332157651571943561351130609819774647583092281826739139936800719192498822750744811141102220452187706647529559908002897596582983072813732421825721428235208931839442731549513549936209916411688363018546583612457985411267241981119719468025043569609967688652601861860038443404068405190548721993336858834699316557355067200376525225725465908274471154356235864709254134787358486996165008595027486719014455768061604379909994230576933588985846891141869471183716830863445383752639177763872176524130708008560292422819812664660808245160330070859428519855887546528327103895948407022024324534310519330896385499742017110101145960388743585521271388772135286380531049502148147721458717920880576822231041051499096268379246275043366055778706105009505646218322648270553476908181613132812764974560195128431671956761563686971387701025456577251009857994614273893425513969678422573646506155487439502622169234527109031176005871815478743181454200557508213155756999667414856305878536705983117936153870368754655257714348893502088881260777552934235209907262203698627585929888228468120861832434191822078301367283703225981150736180837663730810749214178084144933809017639488240038322172456897843953612480152134779400349232566739841843199434702623210232814694005206564771833084076006101526460948740784035313081747105683344709265493402575126730290873813607869789360866886016639710393617128030018366995755318797619156794762196167068570061841396383900581789444636016064494209741721761648735335000871866844846541837988469271308828246959841225751555262898097355200540547737662947308332202637936194466901477300773842140790188271577961644788210729412057375973012260186843434451866108337293180067824058485803143893777644969606307733863130448369163482934485936007870439687029137009541261893221820497894356385449120637370295786214220818556730225733222057475418685902609312781903502045942026105448234356716289105854863968019848445826047956993089825660130675517018079057483173040119293791537989670544070905927384190147889069027661629519439961949775344739280051482347875550988102829096044559696140341593391184473248414273598515254581875504658722612384902709870121285627040187811047982884007688927993265790984945428344200026032847898784916962212125457967616852487354956524424130382387204524282681565340368193612967778475021861563560778768587457502965712802276066860402989515796071019746449516019388185865946814839789811666049820028191039197535303991274528338256700545683077743635894556761190505615778252239169135489406773003450131803855707511156976541418594471124213571492518267325407383948331410954871331291299992127528543309152994289564780088159028360973702671217198721643000688902103751403879260537510864593450561734882300815258334885120734501061626539803118077831409852017608395540094223315419905997333220694505995585981961293593868412756167196073798465375572010732218580242586651483141653881452514352676299252351208813480062622167913301270326126938234967849481688634556763787588053932783587171993498084573732138778404011800475871475551615810927378378448913515899026738998921711707856860615201266947210418262327151718623616699692269216929783754622799860233526521637209104257454944457547438200489061348219014902775372106769762942238807694725367991048666587371016590617420765447540631348046125170509941018848560015485457399736318537798023348152279642928696091709098511252813202889644081719140003542596237876438942078817403758838869542795798904430166068513608132645688906284064191770524951089486056565848566772473563725391383702170241718538327508015232159574957992236160567132649596974415631343854272132721393311831847966196575177099750697197473206859808720265754934053057606804377500263299139383025477846421934166018238795967807662018161903512691291105280965623744440623170188472768041733244833195085844843774961273013896694633784219865305571542186876917189354509413459101322956138106200026976653509786242856565498439096882838517109502538934950387499550400013733500844119988941775319166982809090433437050053688472501999288723199413688570066661729871510229414802205956078974349822306082087832347471577686738346996472334883147636987973339594459909425358798436367408416150824732246554029126009098169351987243220699377036479866292656475611075847724024010985215813778803036363389332952449325761142792629589302987803382393451024051767497803066195914522708975748124769465380765454572709869318138968412916713400608047766972551899919504168403545306200230196139778758881046705136149096175937552234012417499016945616349724930382665621102473913289016538127285875723934502288326621071689782860308453188447882813090922567032361869731820015791373654180277817692889854402114046767017785136911102606524503977365094304503173440001480080277654689699528274972249480675924435426629664057610799897992692558477685142411503545762284290895888639064202636089308330783353936114011194478247565649449722513167761700896959336871514916069633846356595776153084409259782888947492414532912224734628912942357456371978224281429355235486467643617511616325672989859577219699705080966026497888089391453301239384676003509989250297178516617206890130990427508532761714395479201910439175472705770870947595729262471390042310908349212497264357210730292796489003119186765705532149831404632421999379422273911357776628272792316815558868549961120682946878641015312358226250929653401724592724752204626810319896812625216887995663462666022915086159973729579969298090363890483038632156624768402975361863230453516132448671308241492013116810721739199504773418811430143030943103475938258497837351959639429556928481943335761421257456679453785673324442564834476498503828577048329210811952089921128579099839749034735970135453186656104847371794207394189775436670694396473746219847622306026417093922617193037876090093693121408138861696893790878668190814391426786458202563871069688848030687860658571385872081382071115728012008124344423370203639389120432282902748760463661839891598174371942928983279441513241762402609706955275491930452418291486406716773177008325057085130265814144943934693295237958338099838474331361837442299991709327590590502325729338172207484714671777258843700195803617383292699084620933367519854417507237891892693920362912589701963415730136708800385098987865822951147645232633810090982926827193621533607958054826367256413707911302033836269159305768127813401761012457149188085755945616873292904038333692027969453591592684999048452148538177195841225447009979034559799767431222452221067442363792075729077465006719088419103493730975249042706415490167133907373413663881436699952102385626912119146628651652114546343814347151953091103465168659682538872803396210120862132023421627095409096432627252254379077939276709199855538803709919227224872155928470032006186279645504848374520802596388505299911880888135930416522105967814711725193901167296516776890805839094953291333632844487079140067936374719343392287062376679768520082701198330589884800886660667771764160824269810396339878089793245004250751426915334194530184649861951347757143957814548350358543450380625842710915171744773016519034165185214255060105688437105562632617296306616002928004554963524279521334559745910379908920707748094397311265423250505460933081936363724154882572109345802264436752977539635933281665053081427191161158366781539516908824706598866467695208792940497410100662589976694880120725965487965209059656955938755169633675015067550014845193688842856827241584417777750398403243724559682824308286496702361904965097779002771777470179765930077704669719521694304580842871468068179333745641339697629644347744885435204884598565391289217748988560400676023949316715856861862367874874951823797220810126368892807685779292258567058972079544777339632490441392340793742259580065149612835152629043862613782510848552047068739449188013810739174236020605834843484348859665779697664457275387750411289609322458389139355662896507358806189904291570907542091226148596433216187169612627875705144131009382052715784845819119990108369478332378318095804378890346237095968088954909409422892055806395519455882493291547026367358545480313056629934157074534270599673996661586073390696345367430185445718436497026299619875978080699529225803709224374389124173760205443332504331912229028565163741311381794614674492064616026649980167998930376358011400385887235177536378394873759542213178817256782876222144529016158179644743036467693635380038871814039338179687115373113881659309423248272279185753390889028363161991803898588492934709341300354905434106069523954164126561201722336306391674562338389995601275395864479096659356780055028286542643543662105351596652287620610709235160803978093922667046360231927087054353125841051780578767129519146248090648187440768541471247494838402630911438632728717857909135424061995303190002658070857385041507496969018880141670839989955872342128402783174228418404693821594276773389490540960425918284946331909926596628732605610838776575264963846171795050700978911174560280530361923764959195192449699638907457812979479013835091823517309822878699036650581606380732011930994682878624917101375073430473924171210088699627238268494990526745573712262211004312414043013553040926871719122594267122507371863236628819139427052964197892146430280263499906583324580580457228458131702180709496375739257600803539490175964970530712373379916666131510184111831639462885045555640031765387907842967539033343846819577660738609426751370156476999929921432096593931162179446009889309341880592395606260760464109156275934350214416708345367996588581916186237122400486115698025541763941973248800092485381849085506089380685665962786215250922790662432043166085294805892658308095412108526145008102513024681506547766039851394972879699360519413377575030621176922569891523108028074888305541506855628465229276617431357308458267042349342158250870508722689236006932472571418286456408308857503111295634375030953961947767809853900773012914440007495223953798370073389196102965090052208561321505250227365316988021841991585116501451165130946025525190553550179156886257434520680301054239409404401986951147244481084536302952169606667226457479190956270500578910081833239348259433860811976801350337348434589796441784638687040035743870552473621630008457264815273298645452223532769008301816089484665587314655160704216662671459094782091222846985434504126508785003529131181157499240930971997611167858717194780614890910932212134684402120094520382975420845826869394120567441744079911984004301432409988040815811404114633988340725682541224017940022432812665195689459415995647915079397176743195684184196576230169583783458685483499953352915782474888572758996796927848865109962928260252405914651367327404321477677727366217053718999190012828249706603872790053770724362392062633014043356642743996148155163801857204314970555461

/-- The table entry (value + 1) of a position code. -/
def valE (code : Nat) : Nat := (TBL >>> (2 * code)) % 4

/-- The entry a terminal position must carry: 2 if x has a line, 0 if o
has one, 1 otherwise (a draw), matching evaluate from x's perspective. -/
def termE (xm om : Nat) : Nat := if mwins xm then 2 else if mwins om then 0 else 1

/-- The Bellman condition of one position: on positions with a valid move
parity, a terminal position carries its terminal entry, and a non-terminal
position carries the maximum (x to move) or minimum (o to move) of the
entries of its children. -/
def leafOK (xm om code nx no : Nat) : Bool :=
  let e := valE code
  if nx == no || nx == no + 1 then
    if mwins xm || mwins om || (xm ||| om) == 511 then
      e == termE xm om
    else if nx == no then
      ((List.range 9).any fun p => !(xm.testBit p) && !(om.testBit p) &&
        (valE (code + pow3 p) == e)) &&
      ((List.range 9).all fun p => xm.testBit p || om.testBit p ||
        decide (valE (code + pow3 p) ≤ e))
    else
      ((List.range 9).any fun p => !(xm.testBit p) && !(om.testBit p) &&
        (valE (code + 2 * pow3 p) == e)) &&
      ((List.range 9).all fun p => xm.testBit p || om.testBit p ||
        decide (e ≤ valE (code + 2 * pow3 p)))
  else true

/-- Check the Bellman condition of every position: enumerate the three
states of each cell, accumulating masks, code and marker counts. -/
def checkFrom : Nat → Nat → Nat → Nat → Nat → Nat → Bool
  | 0, xm, om, code, nx, no => leafOK xm om code nx no
  | i + 1, xm, om, code, nx, no =>
    checkFrom i xm om code nx no &&
    checkFrom i (xm ||| (1 <<< (8 - i))) om (code + pow3 (8 - i)) (nx + 1) no &&
    checkFrom i xm (om ||| (1 <<< (8 - i))) (code + 2 * pow3 (8 - i)) nx (no + 1)

def bellman_check : Bool := checkFrom 9 0 0 0 0 0

set_option maxRecDepth 1000000 in
theorem bellman_check_eq : bellman_check = true := by decide!

/-- Apply a list of cell digits (0 empty, 1 x, 2 o) to an accumulator
state (masks, code, counts), starting at cell p, exactly as checkFrom
accumulates them. -/
def assign : Nat → List Nat → Nat × Nat × Nat × Nat × Nat → Nat × Nat × Nat × Nat × Nat
  | _, [], s => s
  | p, d :: t, (xm, om, code, nx, no) =>
    if d = 1 then assign (p + 1) t (xm ||| (1 <<< p), om, code + pow3 p, nx + 1, no)
    else if d = 2 then assign (p + 1) t (xm, om ||| (1 <<< p), code + 2 * pow3 p, nx, no + 1)
    else assign (p + 1) t (xm, om, code, nx, no)

theorem checkFrom_sound :
    ∀ (i : Nat), i ≤ 9 → ∀ (xm om code nx no : Nat),
      checkFrom i xm om code nx no = true →
      ∀ ds : List Nat, ds.length = i →
        (fun s : Nat × Nat × Nat × Nat × Nat =>
          leafOK s.1 s.2.1 s.2.2.1 s.2.2.2.1 s.2.2.2.2)
          (assign (9 - i) ds (xm, om, code, nx, no)) = true := by
  intro i
  induction i with
  | zero =>
    intro _ xm om code nx no h ds hds
    rw [List.length_eq_zero.mp hds]
    simpa [assign, checkFrom] using h
  | succ i ih =>
    intro hi xm om code nx no h ds hds
    rcases ds with _ | ⟨d, t⟩
    · simp at hds
    · have ht : t.length = i := by simpa using hds
      have h' := h
      simp only [checkFrom, Bool.and_eq_true] at h'
      obtain ⟨⟨h0, h1⟩, h2⟩ := h'
      have hp : 9 - (i + 1) = 8 - i := by omega
      have hp1 : 8 - i + 1 = 9 - i := by omega
      rw [hp]
      by_cases hd1 : d = 1
      · have := ih (by omega) _ _ _ _ _ h1 t ht
        simp only [assign, hd1, if_pos rfl]
        rw [hp1]
        exact this
      · by_cases hd2 : d = 2
        · have := ih (by omega) _ _ _ _ _ h2 t ht
          simp only [assign, hd1, hd2, if_neg hd1, if_pos rfl]
          rw [hp1]
          exact this
        · have := ih (by omega) _ _ _ _ _ h0 t ht
          simp only [assign, if_neg hd1, if_neg hd2]
          rw [hp1]
          exact this

/-- The x bits contributed by a digit list starting at cell p. -/
def xbits : Nat → List Nat → Nat
  | _, [] => 0
  | p, d :: t => (if d = 1 then 1 <<< p else 0) ||| xbits (p + 1) t

/-- The o bits contributed by a digit list starting at cell p. -/
def obits : Nat → List Nat → Nat
  | _, [] => 0
  | p, d :: t => (if d = 2 then 1 <<< p else 0) ||| obits (p + 1) t

/-- The base-3 code contributed by a digit list starting at cell p. -/
def cval : Nat → List Nat → Nat
  | _, [] => 0
  | p, d :: t => (if d = 1 then pow3 p else if d = 2 then 2 * pow3 p else 0) + cval (p + 1) t

theorem assign_spec : ∀ (ds : List Nat) (p xm om code nx no : Nat),
    assign p ds (xm, om, code, nx, no) =
      (xm ||| xbits p ds, om ||| obits p ds, code + cval p ds,
        nx + ds.count 1, no + ds.count 2) := by
  intro ds
  induction ds with
  | nil => intro p xm om code nx no; simp [assign, xbits, obits, cval]
  | cons d t ih =>
    intro p xm om code nx no
    by_cases hd1 : d = 1
    · simp only [assign, hd1, if_pos rfl, xbits, obits, cval, ih,
        List.count_cons]
      refine congrArg₂ Prod.mk ?_ (congrArg₂ Prod.mk ?_ (congrArg₂ Prod.mk ?_
        (congrArg₂ Prod.mk ?_ ?_))) <;> simp [Nat.or_assoc] <;> omega
    · by_cases hd2 : d = 2
      · simp only [assign, hd2, if_neg hd1, if_pos rfl, xbits, obits, cval, ih,
          List.count_cons]
        refine congrArg₂ Prod.mk ?_ (congrArg₂ Prod.mk ?_ (congrArg₂ Prod.mk ?_
          (congrArg₂ Prod.mk ?_ ?_))) <;> simp [hd1, Nat.or_assoc] <;> omega
      · simp only [assign, if_neg hd1, if_neg hd2, xbits, obits, cval, ih,
          List.count_cons]
        refine congrArg₂ Prod.mk ?_ (congrArg₂ Prod.mk ?_ (congrArg₂ Prod.mk ?_
          (congrArg₂ Prod.mk ?_ ?_))) <;> simp [hd1, hd2, Nat.or_assoc] <;> omega

theorem leafOK_of_digits (ds : List Nat) (h9 : ds.length = 9) :
    leafOK (xbits 0 ds) (obits 0 ds) (cval 0 ds) (ds.count 1) (ds.count 2) = true := by
  have h := checkFrom_sound 9 (by omega) 0 0 0 0 0 bellman_check_eq ds h9
  rw [show (9 : Nat) - 9 = 0 from rfl, assign_spec] at h
  simpa using h

theorem testBit_xbits : ∀ (ds : List Nat) (p0 q : Nat),
    ((xbits p0 ds).testBit q = true) ↔ ∃ j, ds[j]? = some 1 ∧ q = p0 + j := by
  intro ds
  induction ds with
  | nil => intro p0 q; simp [xbits]
  | cons d t ih =>
    intro p0 q
    simp only [xbits, Nat.testBit_or, Bool.or_eq_true]
    constructor
    · rintro (h | h)
      · by_cases hd : d = 1
        · rw [if_pos hd, Nat.shiftLeft_eq, one_mul, Nat.testBit_two_pow] at h
          have hpq := of_decide_eq_true h
          exact ⟨0, by simp [hd], by omega⟩
        · rw [if_neg hd] at h
          simp at h
      · obtain ⟨j, hj, hq⟩ := (ih (p0 + 1) q).mp h
        exact ⟨j + 1, by simpa using hj, by omega⟩
    · rintro ⟨j, hj, rfl⟩
      cases j with
      | zero =>
        left
        have hd : d = 1 := by simpa using hj
        rw [if_pos hd, Nat.shiftLeft_eq, one_mul, Nat.testBit_two_pow]
        simp
      | succ j =>
        right
        exact (ih (p0 + 1) _).mpr ⟨j, by simpa using hj, by omega⟩

theorem testBit_obits : ∀ (ds : List Nat) (p0 q : Nat),
    ((obits p0 ds).testBit q = true) ↔ ∃ j, ds[j]? = some 2 ∧ q = p0 + j := by
  intro ds
  induction ds with
  | nil => intro p0 q; simp [obits]
  | cons d t ih =>
    intro p0 q
    simp only [obits, Nat.testBit_or, Bool.or_eq_true]
    constructor
    · rintro (h | h)
      · by_cases hd : d = 2
        · rw [if_pos hd, Nat.shiftLeft_eq, one_mul, Nat.testBit_two_pow] at h
          have hpq := of_decide_eq_true h
          exact ⟨0, by simp [hd], by omega⟩
        · rw [if_neg hd] at h
          simp at h
      · obtain ⟨j, hj, hq⟩ := (ih (p0 + 1) q).mp h
        exact ⟨j + 1, by simpa using hj, by omega⟩
    · rintro ⟨j, hj, rfl⟩
      cases j with
      | zero =>
        left
        have hd : d = 2 := by simpa using hj
        rw [if_pos hd, Nat.shiftLeft_eq, one_mul, Nat.testBit_two_pow]
        simp
      | succ j =>
        right
        exact (ih (p0 + 1) _).mpr ⟨j, by simpa using hj, by omega⟩

/-! ### The mask abstraction of a board -/

/-- The digit of cell p (row-major) of the board: 1 for x, 2 for o, 0
otherwise. -/
def cellDigit (b : Board) (p : Nat) : Nat :=
  if getCell b (p / 3) (p % 3) = "x" then 1
  else if getCell b (p / 3) (p % 3) = "o" then 2 else 0

/-- The digits of the nine cells in row-major order. -/
def boardDigits (b : Board) : List Nat := (List.range 9).map (cellDigit b)

def xmask (b : Board) : Nat := xbits 0 (boardDigits b)
def omask (b : Board) : Nat := obits 0 (boardDigits b)
def codeB (b : Board) : Nat := cval 0 (boardDigits b)
def nxB (b : Board) : Nat := (boardDigits b).count 1
def noB (b : Board) : Nat := (boardDigits b).count 2

/-- A well-formed game board: the 3x3 shape with every cell a marker or a
digit string. -/
def Wf3 (b : Board) : Prop :=
  b.length = 3 ∧ (∀ r ∈ b, r.length = 3) ∧
    ∀ x, x < 3 → ∀ y, y < 3 →
      getCell b x y = "x" ∨ getCell b x y = "o" ∨ pyIsDigit (getCell b x y) = true

theorem leafOK_board (b : Board) :
    leafOK (xmask b) (omask b) (codeB b) (nxB b) (noB b) = true :=
  leafOK_of_digits (boardDigits b) (by simp [boardDigits])

theorem boardDigits_getElem? (b : Board) (j : Nat) :
    (boardDigits b)[j]? = if j < 9 then some (cellDigit b j) else none := by
  unfold boardDigits
  by_cases hj : j < 9
  · rw [if_pos hj, List.getElem?_map, List.getElem?_range hj]
    rfl
  · rw [if_neg hj, List.getElem?_map, List.getElem?_eq_none (by simpa using hj)]
    rfl

theorem testBit_xmask {b : Board} {x y : Nat} (hx : x < 3) (hy : y < 3) :
    ((xmask b).testBit (3 * x + y) = true) ↔ getCell b x y = "x" := by
  unfold xmask
  rw [testBit_xbits]
  constructor
  · rintro ⟨j, hj, hq⟩
    rw [boardDigits_getElem?] at hj
    by_cases h9 : j < 9
    · rw [if_pos h9] at hj
      have hj' : cellDigit b j = 1 := by simpa using hj
      have hjq : j = 3 * x + y := by omega
      subst hjq
      unfold cellDigit at hj'
      rw [show (3 * x + y) / 3 = x by omega, show (3 * x + y) % 3 = y by omega] at hj'
      by_cases hgx : getCell b x y = "x"
      · exact hgx
      · rw [if_neg hgx] at hj'
        by_cases hgo : getCell b x y = "o"
        · rw [if_pos hgo] at hj'; omega
        · rw [if_neg hgo] at hj'; omega
    · rw [if_neg h9] at hj
      exact absurd hj (by simp)
  · intro hgx
    refine ⟨3 * x + y, ?_, by omega⟩
    rw [boardDigits_getElem?, if_pos (by omega)]
    unfold cellDigit
    rw [show (3 * x + y) / 3 = x by omega, show (3 * x + y) % 3 = y by omega,
      if_pos hgx]

theorem testBit_omask {b : Board} {x y : Nat} (hx : x < 3) (hy : y < 3) :
    ((omask b).testBit (3 * x + y) = true) ↔ getCell b x y = "o" := by
  unfold omask
  rw [testBit_obits]
  constructor
  · rintro ⟨j, hj, hq⟩
    rw [boardDigits_getElem?] at hj
    by_cases h9 : j < 9
    · rw [if_pos h9] at hj
      have hj' : cellDigit b j = 2 := by simpa using hj
      have hjq : j = 3 * x + y := by omega
      subst hjq
      unfold cellDigit at hj'
      rw [show (3 * x + y) / 3 = x by omega, show (3 * x + y) % 3 = y by omega] at hj'
      by_cases hgx : getCell b x y = "x"
      · rw [if_pos hgx] at hj'; omega
      · rw [if_neg hgx] at hj'
        by_cases hgo : getCell b x y = "o"
        · exact hgo
        · rw [if_neg hgo] at hj'; omega
    · rw [if_neg h9] at hj
      exact absurd hj (by simp)
  · intro hgo
    refine ⟨3 * x + y, ?_, by omega⟩
    rw [boardDigits_getElem?, if_pos (by omega)]
    unfold cellDigit
    have hgx : ¬getCell b x y = "x" := by
      rw [hgo]; decide
    rw [show (3 * x + y) / 3 = x by omega, show (3 * x + y) % 3 = y by omega,
      if_neg hgx, if_pos hgo]

theorem testBit_xmask_ge {b : Board} {q : Nat} (hq : 9 ≤ q) :
    (xmask b).testBit q = false := by
  rw [← Bool.not_eq_true]
  unfold xmask
  rw [testBit_xbits]
  rintro ⟨j, hj, rfl⟩
  rw [boardDigits_getElem?] at hj
  by_cases h9 : j < 9
  · omega
  · rw [if_neg h9] at hj
    exact absurd hj (by simp)

theorem testBit_omask_ge {b : Board} {q : Nat} (hq : 9 ≤ q) :
    (omask b).testBit q = false := by
  rw [← Bool.not_eq_true]
  unfold omask
  rw [testBit_obits]
  rintro ⟨j, hj, rfl⟩
  rw [boardDigits_getElem?] at hj
  by_cases h9 : j < 9
  · omega
  · rw [if_neg h9] at hj
    exact absurd hj (by simp)


theorem wins_x_eq_mwins (b : Board) : wins b "x" = mwins (xmask b) := by
  have h00 : ((xmask b).testBit 0 = true) ↔ getCell b 0 0 = "x" :=
    testBit_xmask (b := b) (x := 0) (y := 0) (by omega) (by omega)
  have h01 : ((xmask b).testBit 1 = true) ↔ getCell b 0 1 = "x" :=
    testBit_xmask (b := b) (x := 0) (y := 1) (by omega) (by omega)
  have h02 : ((xmask b).testBit 2 = true) ↔ getCell b 0 2 = "x" :=
    testBit_xmask (b := b) (x := 0) (y := 2) (by omega) (by omega)
  have h10 : ((xmask b).testBit 3 = true) ↔ getCell b 1 0 = "x" :=
    testBit_xmask (b := b) (x := 1) (y := 0) (by omega) (by omega)
  have h11 : ((xmask b).testBit 4 = true) ↔ getCell b 1 1 = "x" :=
    testBit_xmask (b := b) (x := 1) (y := 1) (by omega) (by omega)
  have h12 : ((xmask b).testBit 5 = true) ↔ getCell b 1 2 = "x" :=
    testBit_xmask (b := b) (x := 1) (y := 2) (by omega) (by omega)
  have h20 : ((xmask b).testBit 6 = true) ↔ getCell b 2 0 = "x" :=
    testBit_xmask (b := b) (x := 2) (y := 0) (by omega) (by omega)
  have h21 : ((xmask b).testBit 7 = true) ↔ getCell b 2 1 = "x" :=
    testBit_xmask (b := b) (x := 2) (y := 1) (by omega) (by omega)
  have h22 : ((xmask b).testBit 8 = true) ↔ getCell b 2 2 = "x" :=
    testBit_xmask (b := b) (x := 2) (y := 2) (by omega) (by omega)
  rw [Bool.eq_iff_iff]
  rw [show (wins b "x" = true) ↔ _ from wins_iff b "x"]
  unfold mwins
  simp only [Bool.or_eq_true, Bool.and_eq_true, h00, h01, h02, h10, h11, h12,
    h20, h21, h22]
  unfold line_coords
  simp only [List.mem_cons, List.not_mem_nil, or_false, List.forall_mem_cons,
    List.forall_mem_nil, and_true, exists_eq_or_imp, exists_eq_left,
    forall_eq_or_imp, forall_eq]
  simp only [and_assoc, or_assoc]

theorem wins_o_eq_mwins (b : Board) : wins b "o" = mwins (omask b) := by
  have h00 : ((omask b).testBit 0 = true) ↔ getCell b 0 0 = "o" :=
    testBit_omask (b := b) (x := 0) (y := 0) (by omega) (by omega)
  have h01 : ((omask b).testBit 1 = true) ↔ getCell b 0 1 = "o" :=
    testBit_omask (b := b) (x := 0) (y := 1) (by omega) (by omega)
  have h02 : ((omask b).testBit 2 = true) ↔ getCell b 0 2 = "o" :=
    testBit_omask (b := b) (x := 0) (y := 2) (by omega) (by omega)
  have h10 : ((omask b).testBit 3 = true) ↔ getCell b 1 0 = "o" :=
    testBit_omask (b := b) (x := 1) (y := 0) (by omega) (by omega)
  have h11 : ((omask b).testBit 4 = true) ↔ getCell b 1 1 = "o" :=
    testBit_omask (b := b) (x := 1) (y := 1) (by omega) (by omega)
  have h12 : ((omask b).testBit 5 = true) ↔ getCell b 1 2 = "o" :=
    testBit_omask (b := b) (x := 1) (y := 2) (by omega) (by omega)
  have h20 : ((omask b).testBit 6 = true) ↔ getCell b 2 0 = "o" :=
    testBit_omask (b := b) (x := 2) (y := 0) (by omega) (by omega)
  have h21 : ((omask b).testBit 7 = true) ↔ getCell b 2 1 = "o" :=
    testBit_omask (b := b) (x := 2) (y := 1) (by omega) (by omega)
  have h22 : ((omask b).testBit 8 = true) ↔ getCell b 2 2 = "o" :=
    testBit_omask (b := b) (x := 2) (y := 2) (by omega) (by omega)
  rw [Bool.eq_iff_iff]
  rw [show (wins b "o" = true) ↔ _ from wins_iff b "o"]
  unfold mwins
  simp only [Bool.or_eq_true, Bool.and_eq_true, h00, h01, h02, h10, h11, h12,
    h20, h21, h22]
  unfold line_coords
  simp only [List.mem_cons, List.not_mem_nil, or_false, List.forall_mem_cons,
    List.forall_mem_nil, and_true, exists_eq_or_imp, exists_eq_left,
    forall_eq_or_imp, forall_eq]
  simp only [and_assoc, or_assoc]

/-! ### Empty cells and mask bits -/

theorem empty_iff_bits {b : Board} (hwf : Wf3 b) {x y : Nat} (hx : x < 3) (hy : y < 3) :
    (x, y) ∈ empty_cells b ↔
      (xmask b).testBit (3 * x + y) = false ∧ (omask b).testBit (3 * x + y) = false := by
  obtain ⟨h3, hr, hcell⟩ := hwf
  constructor
  · intro hm
    obtain ⟨_, _, hdig⟩ := mem_empty_cells.mp hm
    constructor
    · rw [← Bool.not_eq_true, testBit_xmask hx hy]
      intro he
      rw [he] at hdig
      exact absurd hdig (by decide)
    · rw [← Bool.not_eq_true, testBit_omask hx hy]
      intro he
      rw [he] at hdig
      exact absurd hdig (by decide)
  · rintro ⟨hbx, hbo⟩
    have hnx : ¬getCell b x y = "x" := by
      intro he
      rw [(testBit_xmask hx hy).mpr he] at hbx
      simp at hbx
    have hno : ¬getCell b x y = "o" := by
      intro he
      rw [(testBit_omask hx hy).mpr he] at hbo
      simp at hbo
    rcases hcell x hx y hy with h | h | h
    · exact absurd h hnx
    · exact absurd h hno
    · refine mem_empty_cells.mpr ⟨by omega, ?_, h⟩
      rw [row_len_three h3 hr hx]
      omega

/-- A board with no empty cell has every one of the nine mask bits set. -/
theorem full_board_mask {b : Board} (hwf : Wf3 b) (hemp : empty_cells b = []) :
    xmask b ||| omask b = 511 := by
  obtain ⟨h3, hr, hcell⟩ := hwf
  apply Nat.eq_of_testBit_eq
  intro i
  rw [Nat.testBit_or]
  have h511 : ∀ j : Nat, (511 : Nat).testBit j = decide (j < 9) := by
    intro j
    rw [show (511 : Nat) = 2 ^ 9 - 1 by norm_num, Nat.testBit_two_pow_sub_one]
  by_cases hi : i < 9
  · obtain ⟨x, y, hx, hy, rfl⟩ : ∃ x y, x < 3 ∧ y < 3 ∧ i = 3 * x + y :=
      ⟨i / 3, i % 3, by omega, by omega, by omega⟩
    rw [h511, decide_eq_true (by omega : 3 * x + y < 9)]
    by_cases hbx : (xmask b).testBit (3 * x + y) = true
    · rw [hbx]
      rfl
    · have hbx' : (xmask b).testBit (3 * x + y) = false := by
        rw [← Bool.not_eq_true]
        exact hbx
      have hbo : (omask b).testBit (3 * x + y) = true := by
        rcases hcell x hx y hy with h | h | h
        · exact absurd ((testBit_xmask hx hy).mpr h) hbx
        · exact (testBit_omask hx hy).mpr h
        · exfalso
          have : (x, y) ∈ empty_cells b := by
            refine mem_empty_cells.mpr ⟨by omega, ?_, h⟩
            rw [row_len_three h3 hr hx]
            omega
          rw [hemp] at this
          exact absurd this (List.not_mem_nil _)
      rw [hbx', hbo]
      rfl
  · rw [testBit_xmask_ge (by omega), testBit_omask_ge (by omega), h511,
      decide_eq_false (by omega)]
    rfl

/-! ### One move, seen on the digit list -/

theorem cellDigit_zero {b : Board} {x y : Nat} (hx : x < 3) (hy : y < 3)
    (hdig : pyIsDigit (getCell b x y) = true) : cellDigit b (3 * x + y) = 0 := by
  unfold cellDigit
  rw [show (3 * x + y) / 3 = x by omega, show (3 * x + y) % 3 = y by omega]
  by_cases hgx : getCell b x y = "x"
  · rw [hgx] at hdig
    exact absurd hdig (by decide)
  · rw [if_neg hgx]
    by_cases hgo : getCell b x y = "o"
    · rw [hgo] at hdig
      exact absurd hdig (by decide)
    · rw [if_neg hgo]

theorem boardDigits_setCell {b : Board} {x y : Nat} (h3 : b.length = 3)
    (hr : ∀ r ∈ b, r.length = 3) (hx : x < 3) (hy : y < 3) (v : String) :
    boardDigits (setCell b x y v) =
      (boardDigits b).set (3 * x + y)
        (if v = "x" then 1 else if v = "o" then 2 else 0) := by
  apply List.ext_getElem?
  intro j
  rw [boardDigits_getElem?, List.getElem?_set]
  have hlen : (boardDigits b).length = 9 := by simp [boardDigits]
  by_cases hj : 3 * x + y = j
  · subst hj
    rw [if_pos rfl, if_pos (show 3 * x + y < 9 by omega),
      if_pos (show 3 * x + y < (boardDigits b).length by omega)]
    congr 1
    unfold cellDigit
    rw [show (3 * x + y) / 3 = x by omega, show (3 * x + y) % 3 = y by omega]
    rw [getCell_setCell_self b x y v (by omega)
      (by rw [row_len_three h3 hr hx]; omega)]
  · rw [if_neg hj, boardDigits_getElem?]
    by_cases h9 : j < 9
    · rw [if_pos h9, if_pos h9]
      congr 1
      unfold cellDigit
      have hne : ¬(j / 3 = x ∧ j % 3 = y) := by
        rintro ⟨h1, h2⟩
        omega
      rw [getCell_setCell_ne b x y v (j / 3) (j % 3) hne]
    · rw [if_neg h9, if_neg h9]

theorem xbits_set : ∀ (ds : List Nat) (p k d : Nat), ds[k]? = some 0 →
    xbits p (ds.set k d) = xbits p ds ||| (if d = 1 then 1 <<< (p + k) else 0) := by
  intro ds
  induction ds with
  | nil =>
    intro p k d h
    exact absurd h (by simp)
  | cons a t ih =>
    intro p k d h
    cases k with
    | zero =>
      have ha : a = 0 := by simpa using h
      subst ha
      simp [xbits, Nat.or_comm]
    | succ k =>
      have ht : t[k]? = some 0 := by simpa using h
      simp only [List.set_cons_succ, xbits, ih (p + 1) k d ht]
      rw [show p + 1 + k = p + (k + 1) by omega, Nat.or_assoc]

theorem obits_set : ∀ (ds : List Nat) (p k d : Nat), ds[k]? = some 0 →
    obits p (ds.set k d) = obits p ds ||| (if d = 2 then 1 <<< (p + k) else 0) := by
  intro ds
  induction ds with
  | nil =>
    intro p k d h
    exact absurd h (by simp)
  | cons a t ih =>
    intro p k d h
    cases k with
    | zero =>
      have ha : a = 0 := by simpa using h
      subst ha
      simp [obits, Nat.or_comm]
    | succ k =>
      have ht : t[k]? = some 0 := by simpa using h
      simp only [List.set_cons_succ, obits, ih (p + 1) k d ht]
      rw [show p + 1 + k = p + (k + 1) by omega, Nat.or_assoc]

theorem cval_set : ∀ (ds : List Nat) (p k d : Nat), ds[k]? = some 0 →
    cval p (ds.set k d) = cval p ds +
      (if d = 1 then pow3 (p + k) else if d = 2 then 2 * pow3 (p + k) else 0) := by
  intro ds
  induction ds with
  | nil =>
    intro p k d h
    exact absurd h (by simp)
  | cons a t ih =>
    intro p k d h
    cases k with
    | zero =>
      have ha : a = 0 := by simpa using h
      subst ha
      simp [List.set_cons_zero, cval]
      split_ifs <;> omega
    | succ k =>
      have ht : t[k]? = some 0 := by simpa using h
      simp only [List.set_cons_succ, cval, ih (p + 1) k d ht]
      rw [show p + 1 + k = p + (k + 1) by omega]
      omega

theorem count_set_zero : ∀ (ds : List Nat) (k d q : Nat), ds[k]? = some 0 → q ≠ 0 →
    (ds.set k d).count q = ds.count q + (if d = q then 1 else 0) := by
  intro ds
  induction ds with
  | nil =>
    intro k d q h _
    exact absurd h (by simp)
  | cons a t ih =>
    intro k d q h hq
    cases k with
    | zero =>
      have ha : a = 0 := by simpa using h
      subst ha
      have h0q : ¬((0 : Nat) = q) := fun he => hq he.symm
      simp [List.count_cons, h0q]
    | succ k =>
      have ht : t[k]? = some 0 := by simpa using h
      simp only [List.set_cons_succ, List.count_cons, ih k d q ht hq]
      split_ifs <;> omega

/-! ### One move, seen on the abstraction -/

theorem board_abstr_setCell_x {b : Board} {x y : Nat} (h3 : b.length = 3)
    (hr : ∀ r ∈ b, r.length = 3) (hx : x < 3) (hy : y < 3)
    (hdig : pyIsDigit (getCell b x y) = true) :
    xmask (setCell b x y "x") = xmask b ||| 1 <<< (3 * x + y) ∧
    omask (setCell b x y "x") = omask b ∧
    codeB (setCell b x y "x") = codeB b + pow3 (3 * x + y) ∧
    nxB (setCell b x y "x") = nxB b + 1 ∧
    noB (setCell b x y "x") = noB b := by
  have h0 : (boardDigits b)[3 * x + y]? = some 0 := by
    rw [boardDigits_getElem?, if_pos (by omega), cellDigit_zero hx hy hdig]
  have hbd := boardDigits_setCell h3 hr hx hy "x"
  rw [if_pos rfl] at hbd
  refine ⟨?_, ?_, ?_, ?_, ?_⟩
  · unfold xmask
    rw [hbd, xbits_set (boardDigits b) 0 (3 * x + y) 1 h0]
    simp
  · unfold omask
    rw [hbd, obits_set (boardDigits b) 0 (3 * x + y) 1 h0]
    simp
  · unfold codeB
    rw [hbd, cval_set (boardDigits b) 0 (3 * x + y) 1 h0]
    simp
  · unfold nxB
    rw [hbd, count_set_zero (boardDigits b) (3 * x + y) 1 1 h0 (by decide)]
    simp
  · unfold noB
    rw [hbd, count_set_zero (boardDigits b) (3 * x + y) 1 2 h0 (by decide)]
    simp

theorem board_abstr_setCell_o {b : Board} {x y : Nat} (h3 : b.length = 3)
    (hr : ∀ r ∈ b, r.length = 3) (hx : x < 3) (hy : y < 3)
    (hdig : pyIsDigit (getCell b x y) = true) :
    xmask (setCell b x y "o") = xmask b ∧
    omask (setCell b x y "o") = omask b ||| 1 <<< (3 * x + y) ∧
    codeB (setCell b x y "o") = codeB b + 2 * pow3 (3 * x + y) ∧
    nxB (setCell b x y "o") = nxB b ∧
    noB (setCell b x y "o") = noB b + 1 := by
  have h0 : (boardDigits b)[3 * x + y]? = some 0 := by
    rw [boardDigits_getElem?, if_pos (by omega), cellDigit_zero hx hy hdig]
  have hbd := boardDigits_setCell h3 hr hx hy "o"
  rw [if_neg (by decide), if_pos rfl] at hbd
  refine ⟨?_, ?_, ?_, ?_, ?_⟩
  · unfold xmask
    rw [hbd, xbits_set (boardDigits b) 0 (3 * x + y) 2 h0]
    simp
  · unfold omask
    rw [hbd, obits_set (boardDigits b) 0 (3 * x + y) 2 h0]
    simp
  · unfold codeB
    rw [hbd, cval_set (boardDigits b) 0 (3 * x + y) 2 h0]
    simp
  · unfold nxB
    rw [hbd, count_set_zero (boardDigits b) (3 * x + y) 2 1 h0 (by decide)]
    simp
  · unfold noB
    rw [hbd, count_set_zero (boardDigits b) (3 * x + y) 2 2 h0 (by decide)]
    simp

theorem Wf3_setCell {b : Board} (hwf : Wf3 b) {x y : Nat} (hx : x < 3) (hy : y < 3)
    (v : String) (hv : v = "x" ∨ v = "o") : Wf3 (setCell b x y v) := by
  obtain ⟨h3, hr, hcell⟩ := hwf
  refine ⟨by rw [setCell_length]; exact h3, ?_, ?_⟩
  · intro r hrm
    rcases List.mem_or_eq_of_mem_set hrm with h | h
    · exact hr r h
    · rw [h, List.length_set]
      exact row_len_three h3 hr hx
  · intro x' hx' y' hy'
    rcases getCell_setCell_or b x y v x' y' with h | h
    · rw [h]
      rcases hv with rfl | rfl
      · exact Or.inl rfl
      · exact Or.inr (Or.inl rfl)
    · rw [h]
      exact hcell x' hx' y' hy'

/-! ### One move removes exactly one empty cell -/

theorem filter_length_drop_one {α : Type} (a0 : α) (p q : α → Bool) :
    ∀ l : List α, l.Nodup → a0 ∈ l → p a0 = true → q a0 = false →
      (∀ a ∈ l, a ≠ a0 → p a = q a) →
      (l.filter q).length + 1 = (l.filter p).length := by
  intro l
  induction l with
  | nil =>
    intro _ h
    simp at h
  | cons a t ih =>
    intro hnd hmem hp hq hagree
    rcases List.nodup_cons.mp hnd with ⟨hna, hndt⟩
    by_cases ha : a = a0
    · subst ha
      have hfeq : t.filter p = t.filter q := by
        apply List.filter_congr
        intro a' ha'
        exact hagree a' (List.mem_cons_of_mem _ ha') (fun he => hna (he ▸ ha'))
      simp [List.filter_cons, hp, hq, hfeq]
    · have hmem' : a0 ∈ t := by
        rcases List.mem_cons.mp hmem with h | h
        · exact absurd h.symm ha
        · exact h
      have hpa : p a = q a := hagree a (List.mem_cons_self _ _) ha
      have iht := ih hndt hmem' hp hq
        (fun a' ha' => hagree a' (List.mem_cons_of_mem _ ha'))
      by_cases hpat : p a = true
      · simp [List.filter_cons, hpat, hpa ▸ hpat]
        omega
      · have hpaf : p a = false := Bool.eq_false_iff.mpr hpat
        simp [List.filter_cons, hpaf, hpa ▸ hpaf]
        omega

theorem length_empty_cells_setCell_marker {b : Board} {x y : Nat}
    (hmem : (x, y) ∈ empty_cells b) (v : String) (hv : pyIsDigit v = false) :
    (empty_cells (setCell b x y v)).length + 1 = (empty_cells b).length := by
  rw [empty_cells_eq_filter, empty_cells_eq_filter, coords_setCell]
  have hx := (mem_empty_cells.mp hmem).1
  have hy := (mem_empty_cells.mp hmem).2.1
  apply filter_length_drop_one (x, y)
  · exact coords_nodup b
  · exact mem_coords.mpr ⟨hx, hy⟩
  · exact (mem_empty_cells.mp hmem).2.2
  · show pyIsDigit (getCell (setCell b x y v) x y) = false
    rw [getCell_setCell_self b x y v hx hy]
    exact hv
  · intro c _ hc
    show pyIsDigit (getCell b c.1 c.2) = pyIsDigit (getCell (setCell b x y v) c.1 c.2)
    rw [getCell_setCell_ne b x y v c.1 c.2 (fun ⟨h1, h2⟩ => hc (Prod.ext h1 h2))]

/-! ### The table entry of a terminal board -/

theorem empty_cell_lt {b : Board} (hwf : Wf3 b) {c : Nat × Nat}
    (hc : c ∈ empty_cells b) : c.1 < 3 ∧ c.2 < 3 := by
  have h3 := hwf.1
  have h1 := (mem_empty_cells.mp hc).1
  have h2 := (mem_empty_cells.mp hc).2.1
  have hx : c.1 < 3 := by omega
  refine ⟨hx, ?_⟩
  rw [row_len_three hwf.1 hwf.2.1 hx] at h2
  exact h2

theorem not_full_of_mem {b : Board} (hwf : Wf3 b) {c : Nat × Nat}
    (hc : c ∈ empty_cells b) (hfull : xmask b ||| omask b = 511) : False := by
  obtain ⟨hx, hy⟩ := empty_cell_lt hwf hc
  obtain ⟨hbx, hbo⟩ := (empty_iff_bits hwf hx hy).mp hc
  have hb := congrArg (fun m => m.testBit (3 * c.1 + c.2)) hfull
  simp only [Nat.testBit_or, hbx, hbo, Bool.or_self] at hb
  rw [show (511 : Nat) = 2 ^ 9 - 1 by norm_num, Nat.testBit_two_pow_sub_one] at hb
  simp at hb
  omega

theorem valE_terminal {b : Board} (hwf : Wf3 b)
    (hpar : nxB b = noB b ∨ nxB b = noB b + 1)
    (hterm : wins b "x" = true ∨ wins b "o" = true ∨ empty_cells b = []) :
    valE (codeB b) = termE (xmask b) (omask b) := by
  have h := leafOK_board b
  simp only [leafOK] at h
  have hg : (nxB b == noB b || nxB b == noB b + 1) = true := by
    rcases hpar with h' | h' <;> simp [h']
  rw [if_pos hg] at h
  have ht : (mwins (xmask b) || mwins (omask b) || (xmask b ||| omask b == 511)) = true := by
    rcases hterm with h' | h' | h'
    · rw [wins_x_eq_mwins] at h'
      simp [h']
    · rw [wins_o_eq_mwins] at h'
      simp [h']
    · simp [full_board_mask hwf h']
  rw [if_pos ht] at h
  exact eq_of_beq h

/-! ### The Bellman step of a non-terminal board -/

set_option maxHeartbeats 2000000 in
theorem valE_step_x {b : Board} (hwf : Wf3 b) (hpar : nxB b = noB b)
    (hwx : wins b "x" = false) (hwo : wins b "o" = false)
    (hne : empty_cells b ≠ []) :
    (∃ c ∈ empty_cells b,
      valE (codeB (setCell b c.1 c.2 "x")) = valE (codeB b)) ∧
    ∀ c ∈ empty_cells b,
      valE (codeB (setCell b c.1 c.2 "x")) ≤ valE (codeB b) := by
  have h := leafOK_board b
  simp only [leafOK] at h
  have hg : (nxB b == noB b || nxB b == noB b + 1) = true := by simp [hpar]
  rw [if_pos hg] at h
  have htf : (mwins (xmask b) || mwins (omask b) || (xmask b ||| omask b == 511)) = false := by
    have h1 : mwins (xmask b) = false := by rw [← wins_x_eq_mwins]; exact hwx
    have h2 : mwins (omask b) = false := by rw [← wins_o_eq_mwins]; exact hwo
    have h3 : (xmask b ||| omask b == 511) = false := by
      apply Bool.eq_false_iff.mpr
      intro hbe
      obtain ⟨c, hc⟩ := List.exists_mem_of_ne_nil _ hne
      exact not_full_of_mem hwf hc (eq_of_beq hbe)
    simp [h1, h2, h3]
  rw [if_neg (Bool.eq_false_iff.mp htf)] at h
  have hnn : (nxB b == noB b) = true := by simp [hpar]
  rw [if_pos hnn] at h
  rw [Bool.and_eq_true] at h
  obtain ⟨h1, h2⟩ := h
  simp only [List.any_eq_true, List.mem_range, Bool.and_eq_true,
    Bool.not_eq_true', beq_iff_eq] at h1
  simp only [List.all_eq_true, List.mem_range, Bool.or_eq_true,
    decide_eq_true_eq] at h2
  constructor
  · obtain ⟨p, hp9, ⟨hbx, hbo⟩, hval⟩ := h1
    have hx : p / 3 < 3 := by omega
    have hy : p % 3 < 3 := by omega
    have hp3 : 3 * (p / 3) + p % 3 = p := by omega
    have hmem : (p / 3, p % 3) ∈ empty_cells b := by
      refine (empty_iff_bits hwf hx hy).mpr ?_
      rw [hp3]
      exact ⟨hbx, hbo⟩
    refine ⟨(p / 3, p % 3), hmem, ?_⟩
    have hdig := (mem_empty_cells.mp hmem).2.2
    rw [(board_abstr_setCell_x hwf.1 hwf.2.1 hx hy hdig).2.2.1, hp3]
    exact hval
  · intro c hc
    obtain ⟨hx, hy⟩ := empty_cell_lt hwf hc
    have hc' : (c.1, c.2) ∈ empty_cells b := hc
    obtain ⟨hbx, hbo⟩ := (empty_iff_bits hwf hx hy).mp hc'
    have hdig := (mem_empty_cells.mp hc).2.2
    rw [(board_abstr_setCell_x hwf.1 hwf.2.1 hx hy hdig).2.2.1]
    rcases h2 (3 * c.1 + c.2) (by omega) with (h' | h') | h'
    · rw [hbx] at h'
      exact absurd h' (by simp)
    · rw [hbo] at h'
      exact absurd h' (by simp)
    · exact h'

set_option maxHeartbeats 2000000 in
theorem valE_step_o {b : Board} (hwf : Wf3 b) (hpar : nxB b = noB b + 1)
    (hwx : wins b "x" = false) (hwo : wins b "o" = false)
    (hne : empty_cells b ≠ []) :
    (∃ c ∈ empty_cells b,
      valE (codeB (setCell b c.1 c.2 "o")) = valE (codeB b)) ∧
    ∀ c ∈ empty_cells b,
      valE (codeB b) ≤ valE (codeB (setCell b c.1 c.2 "o")) := by
  have h := leafOK_board b
  simp only [leafOK] at h
  have hg : (nxB b == noB b || nxB b == noB b + 1) = true := by simp [hpar]
  rw [if_pos hg] at h
  have htf : (mwins (xmask b) || mwins (omask b) || (xmask b ||| omask b == 511)) = false := by
    have h1 : mwins (xmask b) = false := by rw [← wins_x_eq_mwins]; exact hwx
    have h2 : mwins (omask b) = false := by rw [← wins_o_eq_mwins]; exact hwo
    have h3 : (xmask b ||| omask b == 511) = false := by
      apply Bool.eq_false_iff.mpr
      intro hbe
      obtain ⟨c, hc⟩ := List.exists_mem_of_ne_nil _ hne
      exact not_full_of_mem hwf hc (eq_of_beq hbe)
    simp [h1, h2, h3]
  rw [if_neg (Bool.eq_false_iff.mp htf)] at h
  have hnn : (nxB b == noB b) = false := by
    apply Bool.eq_false_iff.mpr
    intro hbe
    have := eq_of_beq hbe
    omega
  rw [if_neg (Bool.eq_false_iff.mp hnn)] at h
  rw [Bool.and_eq_true] at h
  obtain ⟨h1, h2⟩ := h
  simp only [List.any_eq_true, List.mem_range, Bool.and_eq_true,
    Bool.not_eq_true', beq_iff_eq] at h1
  simp only [List.all_eq_true, List.mem_range, Bool.or_eq_true,
    decide_eq_true_eq] at h2
  constructor
  · obtain ⟨p, hp9, ⟨hbx, hbo⟩, hval⟩ := h1
    have hx : p / 3 < 3 := by omega
    have hy : p % 3 < 3 := by omega
    have hp3 : 3 * (p / 3) + p % 3 = p := by omega
    have hmem : (p / 3, p % 3) ∈ empty_cells b := by
      refine (empty_iff_bits hwf hx hy).mpr ?_
      rw [hp3]
      exact ⟨hbx, hbo⟩
    refine ⟨(p / 3, p % 3), hmem, ?_⟩
    have hdig := (mem_empty_cells.mp hmem).2.2
    rw [(board_abstr_setCell_o hwf.1 hwf.2.1 hx hy hdig).2.2.1, hp3]
    exact hval
  · intro c hc
    obtain ⟨hx, hy⟩ := empty_cell_lt hwf hc
    have hc' : (c.1, c.2) ∈ empty_cells b := hc
    obtain ⟨hbx, hbo⟩ := (empty_iff_bits hwf hx hy).mp hc'
    have hdig := (mem_empty_cells.mp hc).2.2
    rw [(board_abstr_setCell_o hwf.1 hwf.2.1 hx hy hdig).2.2.1]
    rcases h2 (3 * c.1 + c.2) (by omega) with (h' | h') | h'
    · rw [hbx] at h'
      exact absurd h' (by simp)
    · rw [hbo] at h'
      exact absurd h' (by simp)
    · exact h'

/-! ### evaluate through the table's terminal entry -/

theorem evaluate_eq_termE {b : Board} (self : String)
    (hself : self = "x" ∨ self = "o")
    (hnd : ¬(wins b "x" = true ∧ wins b "o" = true)) :
    evaluate self b =
      (if self = "x" then 1 else -1) * ((termE (xmask b) (omask b) : Int) - 1) := by
  rcases hself with rfl | rfl
  · rw [if_pos rfl, one_mul]
    unfold evaluate termE
    rw [show other_marker "x" = "o" from rfl, wins_x_eq_mwins, wins_o_eq_mwins]
    by_cases hx : mwins (xmask b) = true
    · rw [if_pos hx, if_pos hx]
      norm_num
    · rw [if_neg hx, if_neg hx]
      by_cases ho : mwins (omask b) = true
      · rw [if_pos ho, if_pos ho]
        norm_num
      · rw [if_neg ho, if_neg ho]
        norm_num
  · rw [if_neg (by decide)]
    unfold evaluate termE
    rw [show other_marker "o" = "x" from rfl, wins_x_eq_mwins, wins_o_eq_mwins]
    by_cases hx : mwins (xmask b) = true
    · have ho : ¬(mwins (omask b) = true) := by
        intro ho
        exact hnd ⟨by rw [wins_x_eq_mwins]; exact hx,
          by rw [wins_o_eq_mwins]; exact ho⟩
      simp only [if_pos hx, if_neg ho]
      norm_num
    · by_cases ho : mwins (omask b) = true
      · simp only [if_pos ho, if_neg hx]
        norm_num
      · simp only [if_neg hx, if_neg ho]
        norm_num

/-! ### The fold value of a non-terminal search -/

theorem minimax_max_value (self : String) (d : Nat) (b : Board)
    (hterm : ¬(wins b "x" = true ∨ wins b "o" = true)) (hd0 : d ≠ 0)
    (hd : d ≤ (empty_cells b).length) (v : Int)
    (hub : ∀ c ∈ empty_cells b, ∀ n : Int,
      child_score self b (d - 1) self c = XInt.fin n → n ≤ v)
    (hex : ∃ c ∈ empty_cells b, child_score self b (d - 1) self c = XInt.fin v) :
    (minimax self b d self).1.2.2 = XInt.fin v := by
  obtain ⟨l1, c', l2, hsplit, heq, hmax, _⟩ := minimax_first_opt self d b self hterm hd0 hd
  obtain ⟨hl1, hl2⟩ := hmax rfl
  have hc'mem : c' ∈ empty_cells b := by
    rw [hsplit]
    exact List.mem_append.mpr (Or.inr (List.mem_cons_self _ _))
  obtain ⟨n, hn, _, _⟩ :=
    child_score_bounds self (d - 1) b self (by omega) c' hc'mem
  have hnv : n ≤ v := hub c' hc'mem n hn
  obtain ⟨cW, hcW, hcsW⟩ := hex
  have hcases : cW ∈ l1 ∨ cW = c' ∨ cW ∈ l2 := by
    have := hsplit ▸ hcW
    rcases List.mem_append.mp this with h | h
    · exact Or.inl h
    · rcases List.mem_cons.mp h with h | h
      · exact Or.inr (Or.inl h)
      · exact Or.inr (Or.inr h)
  have hvn : v ≤ n := by
    rcases hcases with h | h | h
    · have hb := hl1 cW h
      rw [hcsW, hn] at hb
      simp [XInt.bgt] at hb
      omega
    · have h' : XInt.fin n = XInt.fin v := hn.symm.trans (h ▸ hcsW)
      simp only [XInt.fin.injEq] at h'
      omega
    · have hb := hl2 cW h
      rw [hcsW, hn] at hb
      simp [XInt.bgt] at hb
      omega
  have hnv' : n = v := by omega
  calc (minimax self b d self).1.2.2
      = child_score self b (d - 1) self c' := by rw [heq]
    _ = XInt.fin v := by rw [hn, hnv']

theorem minimax_min_value (self : String) (d : Nat) (b : Board) (p : String)
    (hps : ¬p = self)
    (hterm : ¬(wins b "x" = true ∨ wins b "o" = true)) (hd0 : d ≠ 0)
    (hd : d ≤ (empty_cells b).length) (v : Int)
    (hlb : ∀ c ∈ empty_cells b, ∀ n : Int,
      child_score self b (d - 1) p c = XInt.fin n → v ≤ n)
    (hex : ∃ c ∈ empty_cells b, child_score self b (d - 1) p c = XInt.fin v) :
    (minimax self b d p).1.2.2 = XInt.fin v := by
  obtain ⟨l1, c', l2, hsplit, heq, _, hmin⟩ := minimax_first_opt self d b p hterm hd0 hd
  obtain ⟨hl1, hl2⟩ := hmin hps
  have hc'mem : c' ∈ empty_cells b := by
    rw [hsplit]
    exact List.mem_append.mpr (Or.inr (List.mem_cons_self _ _))
  obtain ⟨n, hn, _, _⟩ :=
    child_score_bounds self (d - 1) b p (by omega) c' hc'mem
  have hnv : v ≤ n := hlb c' hc'mem n hn
  obtain ⟨cW, hcW, hcsW⟩ := hex
  have hcases : cW ∈ l1 ∨ cW = c' ∨ cW ∈ l2 := by
    have := hsplit ▸ hcW
    rcases List.mem_append.mp this with h | h
    · exact Or.inl h
    · rcases List.mem_cons.mp h with h | h
      · exact Or.inr (Or.inl h)
      · exact Or.inr (Or.inr h)
  have hvn : n ≤ v := by
    rcases hcases with h | h | h
    · have hb := hl1 cW h
      rw [hcsW, hn] at hb
      simp [XInt.blt, XInt.bgt] at hb
      omega
    · have h' : XInt.fin n = XInt.fin v := hn.symm.trans (h ▸ hcsW)
      simp only [XInt.fin.injEq] at h'
      omega
    · have hb := hl2 cW h
      rw [hcsW, hn] at hb
      simp [XInt.blt, XInt.bgt] at hb
      omega
  have hnv' : n = v := by omega
  calc (minimax self b d p).1.2.2
      = child_score self b (d - 1) p c' := by rw [heq]
    _ = XInt.fin v := by rw [hn, hnv']

/-! ### The minimax score is the solved-table value -/

theorem minimax_eq_val :
    ∀ (d : Nat) (b : Board) (self p : String), Wf3 b →
      (self = "x" ∨ self = "o") →
      ((p = "x" ∧ nxB b = noB b) ∨ (p = "o" ∧ nxB b = noB b + 1)) →
      ¬(wins b "x" = true ∧ wins b "o" = true) →
      d = (empty_cells b).length →
      (minimax self b d p).1.2.2 =
        XInt.fin ((if self = "x" then 1 else -1) * ((valE (codeB b) : Int) - 1)) := by
  intro d
  induction d with
  | zero =>
    intro b self p hwf hself hpar hnd hlen
    have hemp : empty_cells b = [] := List.length_eq_zero.mp hlen.symm
    have hpar' : nxB b = noB b ∨ nxB b = noB b + 1 := by
      rcases hpar with ⟨_, h⟩ | ⟨_, h⟩
      · exact Or.inl h
      · exact Or.inr h
    have hev : (minimax self b 0 p).1.2.2 = XInt.fin (evaluate self b) := rfl
    rw [hev, valE_terminal hwf hpar' (Or.inr (Or.inr hemp))]
    congr 1
    exact evaluate_eq_termE self hself hnd
  | succ k ih =>
    intro b self p hwf hself hpar hnd hlen
    have hpar' : nxB b = noB b ∨ nxB b = noB b + 1 := by
      rcases hpar with ⟨_, h⟩ | ⟨_, h⟩
      · exact Or.inl h
      · exact Or.inr h
    by_cases hterm : wins b "x" = true ∨ wins b "o" = true
    · rw [minimax_eq, if_pos (Or.inr hterm)]
      show XInt.fin (evaluate self b) = _
      rw [valE_terminal hwf hpar' (Or.imp_right Or.inl hterm)]
      congr 1
      exact evaluate_eq_termE self hself hnd
    · have hne : empty_cells b ≠ [] := by
        intro h0
        rw [h0] at hlen
        simp at hlen
      have hwx : wins b "x" = false := Bool.eq_false_iff.mpr (fun h => hterm (Or.inl h))
      have hwo : wins b "o" = false := Bool.eq_false_iff.mpr (fun h => hterm (Or.inr h))
      have hd0 : (k + 1 : Nat) ≠ 0 := Nat.succ_ne_zero k
      have hdle : k + 1 ≤ (empty_cells b).length := le_of_eq hlen
      rcases hpar with ⟨rfl, hnn⟩ | ⟨rfl, hnn⟩
      · obtain ⟨hex, hall⟩ := valE_step_x hwf hnn hwx hwo hne
        have hchild : ∀ c ∈ empty_cells b,
            child_score self b k "x" c =
              XInt.fin ((if self = "x" then 1 else -1) *
                ((valE (codeB (setCell b c.1 c.2 "x")) : Int) - 1)) := by
          intro c hc
          obtain ⟨hx, hy⟩ := empty_cell_lt hwf hc
          have hdig := (mem_empty_cells.mp hc).2.2
          have habs := board_abstr_setCell_x hwf.1 hwf.2.1 hx hy hdig
          have hwf' : Wf3 (setCell b c.1 c.2 "x") :=
            Wf3_setCell hwf hx hy "x" (Or.inl rfl)
          have hwo' : wins (setCell b c.1 c.2 "x") "o" = false :=
            wins_setCell_of_ne b c.1 c.2 "x" "o" (by decide) hwo
          have hnd' : ¬(wins (setCell b c.1 c.2 "x") "x" = true ∧
              wins (setCell b c.1 c.2 "x") "o" = true) := by
            rintro ⟨_, h2⟩
            rw [hwo'] at h2
            exact absurd h2 (by simp)
          have hlen' : k = (empty_cells (setCell b c.1 c.2 "x")).length := by
            have := length_empty_cells_setCell_marker hc "x" (by decide)
            omega
          have hpar'' : (other_marker "x" = "x" ∧
                nxB (setCell b c.1 c.2 "x") = noB (setCell b c.1 c.2 "x")) ∨
              (other_marker "x" = "o" ∧ nxB (setCell b c.1 c.2 "x") =
                noB (setCell b c.1 c.2 "x") + 1) := by
            refine Or.inr ⟨rfl, ?_⟩
            rw [habs.2.2.2.1, habs.2.2.2.2]
            omega
          exact ih (setCell b c.1 c.2 "x") self (other_marker "x") hwf' hself
            hpar'' hnd' hlen'
        by_cases hsx : self = "x"
        · subst hsx
          rw [if_pos rfl, one_mul]
          apply minimax_max_value "x" (k + 1) b hterm hd0 hdle
          · intro c hc n hn
            have hn' : child_score "x" b k "x" c = XInt.fin n := hn
            have h' := (hchild c hc).symm.trans hn'
            rw [if_pos rfl, one_mul] at h'
            simp only [XInt.fin.injEq] at h'
            have hle := hall c hc
            omega
          · obtain ⟨c0, hc0, hv0⟩ := hex
            refine ⟨c0, hc0, ?_⟩
            have h' := hchild c0 hc0
            rw [if_pos rfl, one_mul, hv0] at h'
            exact h'
        · have hso : self = "o" := by
            rcases hself with h | h
            · exact absurd h hsx
            · exact h
          subst hso
          rw [if_neg (by decide)]
          apply minimax_min_value "o" (k + 1) b "x" (by decide) hterm hd0 hdle
          · intro c hc n hn
            have hn' : child_score "o" b k "x" c = XInt.fin n := hn
            have h' := (hchild c hc).symm.trans hn'
            rw [if_neg (by decide)] at h'
            simp only [XInt.fin.injEq] at h'
            have hle := hall c hc
            omega
          · obtain ⟨c0, hc0, hv0⟩ := hex
            refine ⟨c0, hc0, ?_⟩
            have h' := hchild c0 hc0
            rw [if_neg (by decide), hv0] at h'
            exact h'
      · obtain ⟨hex, hall⟩ := valE_step_o hwf hnn hwx hwo hne
        have hchild : ∀ c ∈ empty_cells b,
            child_score self b k "o" c =
              XInt.fin ((if self = "x" then 1 else -1) *
                ((valE (codeB (setCell b c.1 c.2 "o")) : Int) - 1)) := by
          intro c hc
          obtain ⟨hx, hy⟩ := empty_cell_lt hwf hc
          have hdig := (mem_empty_cells.mp hc).2.2
          have habs := board_abstr_setCell_o hwf.1 hwf.2.1 hx hy hdig
          have hwf' : Wf3 (setCell b c.1 c.2 "o") :=
            Wf3_setCell hwf hx hy "o" (Or.inr rfl)
          have hwx' : wins (setCell b c.1 c.2 "o") "x" = false :=
            wins_setCell_of_ne b c.1 c.2 "o" "x" (by decide) hwx
          have hnd' : ¬(wins (setCell b c.1 c.2 "o") "x" = true ∧
              wins (setCell b c.1 c.2 "o") "o" = true) := by
            rintro ⟨h1, _⟩
            rw [hwx'] at h1
            exact absurd h1 (by simp)
          have hlen' : k = (empty_cells (setCell b c.1 c.2 "o")).length := by
            have := length_empty_cells_setCell_marker hc "o" (by decide)
            omega
          have hpar'' : (other_marker "o" = "x" ∧
                nxB (setCell b c.1 c.2 "o") = noB (setCell b c.1 c.2 "o")) ∨
              (other_marker "o" = "o" ∧ nxB (setCell b c.1 c.2 "o") =
                noB (setCell b c.1 c.2 "o") + 1) := by
            refine Or.inl ⟨rfl, ?_⟩
            rw [habs.2.2.2.1, habs.2.2.2.2]
            omega
          exact ih (setCell b c.1 c.2 "o") self (other_marker "o") hwf' hself
            hpar'' hnd' hlen'
        by_cases hsx : self = "x"
        · subst hsx
          rw [if_pos rfl, one_mul]
          apply minimax_min_value "x" (k + 1) b "o" (by decide) hterm hd0 hdle
          · intro c hc n hn
            have hn' : child_score "x" b k "o" c = XInt.fin n := hn
            have h' := (hchild c hc).symm.trans hn'
            rw [if_pos rfl, one_mul] at h'
            simp only [XInt.fin.injEq] at h'
            have hle := hall c hc
            omega
          · obtain ⟨c0, hc0, hv0⟩ := hex
            refine ⟨c0, hc0, ?_⟩
            have h' := hchild c0 hc0
            rw [if_pos rfl, one_mul, hv0] at h'
            exact h'
        · have hso : self = "o" := by
            rcases hself with h | h
            · exact absurd h hsx
            · exact h
          subst hso
          rw [if_neg (by decide)]
          apply minimax_max_value "o" (k + 1) b hterm hd0 hdle
          · intro c hc n hn
            have hn' : child_score "o" b k "o" c = XInt.fin n := hn
            have h' := (hchild c hc).symm.trans hn'
            rw [if_neg (by decide)] at h'
            simp only [XInt.fin.injEq] at h'
            have hle := hall c hc
            omega
          · obtain ⟨c0, hc0, hv0⟩ := hex
            refine ⟨c0, hc0, ?_⟩
            have h' := hchild c0 hc0
            rw [if_neg (by decide), hv0] at h'
            exact h'

/-! ### A position of value 1 has no winning line -/

theorem no_wins_of_val_one {b : Board} (hwf : Wf3 b)
    (hpar : nxB b = noB b ∨ nxB b = noB b + 1)
    (hv : valE (codeB b) = 1) :
    wins b "x" = false ∧ wins b "o" = false := by
  by_cases hx : wins b "x" = true
  · exfalso
    have ht := valE_terminal hwf hpar (Or.inl hx)
    rw [hv] at ht
    unfold termE at ht
    rw [if_pos (by rw [← wins_x_eq_mwins]; exact hx)] at ht
    omega
  · have hx' : wins b "x" = false := Bool.eq_false_iff.mpr hx
    by_cases ho : wins b "o" = true
    · exfalso
      have ht := valE_terminal hwf hpar (Or.inr (Or.inl ho))
      rw [hv] at ht
      unfold termE at ht
      rw [if_neg (fun hmx => (Bool.eq_false_iff.mp hx')
          (by rw [← wins_x_eq_mwins] at hmx; exact hmx)),
        if_pos (by rw [← wins_o_eq_mwins]; exact ho)] at ht
      omega
    · exact ⟨hx', Bool.eq_false_iff.mpr ho⟩

/-! ### The score of one simulated move is the child's table value -/

theorem child_score_eq_val (self : String) {b : Board} {turn : String}
    {c : Nat × Nat} {k : Nat}
    (hwf : Wf3 b) (hself : self = "x" ∨ self = "o")
    (hpar : (turn = "x" ∧ nxB b = noB b) ∨ (turn = "o" ∧ nxB b = noB b + 1))
    (hwx : wins b "x" = false) (hwo : wins b "o" = false)
    (hc : c ∈ empty_cells b)
    (hk : k + 1 = (empty_cells b).length) :
    child_score self b k turn c =
      XInt.fin ((if self = "x" then 1 else -1) *
        ((valE (codeB (setCell b c.1 c.2 turn)) : Int) - 1)) := by
  rcases hpar with ⟨rfl, hnn⟩ | ⟨rfl, hnn⟩
  · obtain ⟨hx, hy⟩ := empty_cell_lt hwf hc
    have hdig := (mem_empty_cells.mp hc).2.2
    have habs := board_abstr_setCell_x hwf.1 hwf.2.1 hx hy hdig
    have hwf' : Wf3 (setCell b c.1 c.2 "x") :=
      Wf3_setCell hwf hx hy "x" (Or.inl rfl)
    have hwo' : wins (setCell b c.1 c.2 "x") "o" = false :=
      wins_setCell_of_ne b c.1 c.2 "x" "o" (by decide) hwo
    have hnd' : ¬(wins (setCell b c.1 c.2 "x") "x" = true ∧
        wins (setCell b c.1 c.2 "x") "o" = true) := by
      rintro ⟨_, h2⟩
      rw [hwo'] at h2
      exact absurd h2 (by simp)
    have hlen' : k = (empty_cells (setCell b c.1 c.2 "x")).length := by
      have := length_empty_cells_setCell_marker hc "x" (by decide)
      omega
    have hpar'' : (other_marker "x" = "x" ∧
          nxB (setCell b c.1 c.2 "x") = noB (setCell b c.1 c.2 "x")) ∨
        (other_marker "x" = "o" ∧ nxB (setCell b c.1 c.2 "x") =
          noB (setCell b c.1 c.2 "x") + 1) := by
      refine Or.inr ⟨rfl, ?_⟩
      rw [habs.2.2.2.1, habs.2.2.2.2]
      omega
    exact minimax_eq_val k (setCell b c.1 c.2 "x") self (other_marker "x")
      hwf' hself hpar'' hnd' hlen'
  · obtain ⟨hx, hy⟩ := empty_cell_lt hwf hc
    have hdig := (mem_empty_cells.mp hc).2.2
    have habs := board_abstr_setCell_o hwf.1 hwf.2.1 hx hy hdig
    have hwf' : Wf3 (setCell b c.1 c.2 "o") :=
      Wf3_setCell hwf hx hy "o" (Or.inr rfl)
    have hwx' : wins (setCell b c.1 c.2 "o") "x" = false :=
      wins_setCell_of_ne b c.1 c.2 "o" "x" (by decide) hwx
    have hnd' : ¬(wins (setCell b c.1 c.2 "o") "x" = true ∧
        wins (setCell b c.1 c.2 "o") "o" = true) := by
      rintro ⟨h1, _⟩
      rw [hwx'] at h1
      exact absurd h1 (by simp)
    have hlen' : k = (empty_cells (setCell b c.1 c.2 "o")).length := by
      have := length_empty_cells_setCell_marker hc "o" (by decide)
      omega
    have hpar'' : (other_marker "o" = "x" ∧
          nxB (setCell b c.1 c.2 "o") = noB (setCell b c.1 c.2 "o")) ∨
        (other_marker "o" = "o" ∧ nxB (setCell b c.1 c.2 "o") =
          noB (setCell b c.1 c.2 "o") + 1) := by
      refine Or.inl ⟨rfl, ?_⟩
      rw [habs.2.2.2.1, habs.2.2.2.2]
      omega
    exact minimax_eq_val k (setCell b c.1 c.2 "o") self (other_marker "o")
      hwf' hself hpar'' hnd' hlen'

/-! ### One self-play ply on a drawn position -/

theorem play_turn_step {b : Board} {turn : String} (pick : Nat) (hwf : Wf3 b)
    (hpar : (turn = "x" ∧ nxB b = noB b) ∨ (turn = "o" ∧ nxB b = noB b + 1))
    (hv : valE (codeB b) = 1)
    (hlen9 : (empty_cells b).length ≠ 9)
    (hne : empty_cells b ≠ []) :
    Wf3 (play_turn b turn pick) ∧
    ((other_marker turn = "x" ∧
        nxB (play_turn b turn pick) = noB (play_turn b turn pick)) ∨
      (other_marker turn = "o" ∧
        nxB (play_turn b turn pick) = noB (play_turn b turn pick) + 1)) ∧
    valE (codeB (play_turn b turn pick)) = 1 ∧
    (empty_cells (play_turn b turn pick)).length + 1 = (empty_cells b).length := by
  have hself : turn = "x" ∨ turn = "o" := by
    rcases hpar with ⟨h, _⟩ | ⟨h, _⟩
    · exact Or.inl h
    · exact Or.inr h
  have hpar0 : nxB b = noB b ∨ nxB b = noB b + 1 := by
    rcases hpar with ⟨_, h⟩ | ⟨_, h⟩
    · exact Or.inl h
    · exact Or.inr h
  obtain ⟨hwx, hwo⟩ := no_wins_of_val_one hwf hpar0 hv
  have hterm : ¬(wins b "x" = true ∨ wins b "o" = true) := by
    rintro (h | h)
    · rw [hwx] at h
      exact absurd h (by simp)
    · rw [hwo] at h
      exact absurd h (by simp)
  have hlen0 : (empty_cells b).length ≠ 0 := by
    intro h0
    exact hne (List.length_eq_zero.mp h0)
  obtain ⟨c', hc', heq⟩ :=
    minimax_result_cell turn ((empty_cells b).length) b turn hterm hlen0 le_rfl
  have hnd : ¬(wins b "x" = true ∧ wins b "o" = true) := by
    rintro ⟨h, _⟩
    rw [hwx] at h
    exact absurd h (by simp)
  have hval := minimax_eq_val ((empty_cells b).length) b turn turn hwf hself hpar hnd rfl
  have h22 : (minimax turn b (empty_cells b).length turn).1.2.2 =
      child_score turn b ((empty_cells b).length - 1) turn c' := by
    rw [heq]
  have hcs0 : child_score turn b ((empty_cells b).length - 1) turn c' =
      XInt.fin ((if turn = "x" then 1 else -1) * ((valE (codeB b) : Int) - 1)) :=
    h22.symm.trans hval
  have hcsv := child_score_eq_val turn hwf hself hpar hwx hwo hc'
    (show (empty_cells b).length - 1 + 1 = (empty_cells b).length by omega)
  have hveq : valE (codeB (setCell b c'.1 c'.2 turn)) = 1 := by
    have h' := hcsv.symm.trans hcs0
    rw [hv] at h'
    simp only [XInt.fin.injEq] at h'
    rcases hself with rfl | rfl
    · rw [if_pos rfl] at h'
      omega
    · rw [if_neg (by decide)] at h'
      omega
  have hvalid : valid_move b c'.1 c'.2 = true := by
    unfold valid_move
    exact List.elem_iff.mpr hc'
  have hmv : get_move turn b pick = (Int.ofNat c'.1, Int.ofNat c'.2) := by
    unfold get_move
    rw [if_neg hlen9, heq]
  have hpt : play_turn b turn pick = setCell b c'.1 c'.2 turn := by
    unfold play_turn
    rw [hmv]
    show (make_move b turn (c'.1, c'.2)).2 = _
    unfold make_move
    rw [if_pos hvalid]
  obtain ⟨hx, hy⟩ := empty_cell_lt hwf hc'
  have hdig := (mem_empty_cells.mp hc').2.2
  refine ⟨?_, ?_, ?_, ?_⟩
  · rw [hpt]
    exact Wf3_setCell hwf hx hy turn hself
  · rw [hpt]
    rcases hself with rfl | rfl
    · have habs := board_abstr_setCell_x hwf.1 hwf.2.1 hx hy hdig
      refine Or.inr ⟨rfl, ?_⟩
      rw [habs.2.2.2.1, habs.2.2.2.2]
      rcases hpar with ⟨_, hnn⟩ | ⟨h, _⟩
      · omega
      · exact absurd h (by decide)
    · have habs := board_abstr_setCell_o hwf.1 hwf.2.1 hx hy hdig
      refine Or.inl ⟨rfl, ?_⟩
      rw [habs.2.2.2.1, habs.2.2.2.2]
      rcases hpar with ⟨h, _⟩ | ⟨_, hnn⟩
      · exact absurd h (by decide)
      · omega
  · rw [hpt]
    exact hveq
  · rw [hpt]
    exact length_empty_cells_setCell_marker hc' turn
      (by rcases hself with rfl | rfl <;> decide)

/-! ### Self-play from any drawn position is a draw -/

theorem self_play_draw_aux :
    ∀ (n : Nat) (b : Board) (turn : String) (pick : Nat), Wf3 b →
      ((turn = "x" ∧ nxB b = noB b) ∨ (turn = "o" ∧ nxB b = noB b + 1)) →
      valE (codeB b) = 1 →
      n = (empty_cells b).length →
      n ≤ 8 →
      wins (self_play n b turn pick) "x" = false ∧
      wins (self_play n b turn pick) "o" = false ∧
      empty_cells (self_play n b turn pick) = [] := by
  intro n
  induction n with
  | zero =>
    intro b turn pick hwf hpar hv hlen _
    have hemp : empty_cells b = [] := List.length_eq_zero.mp hlen.symm
    have hpar0 : nxB b = noB b ∨ nxB b = noB b + 1 := by
      rcases hpar with ⟨_, h⟩ | ⟨_, h⟩
      · exact Or.inl h
      · exact Or.inr h
    obtain ⟨hwx, hwo⟩ := no_wins_of_val_one hwf hpar0 hv
    exact ⟨hwx, hwo, hemp⟩
  | succ k ih =>
    intro b turn pick hwf hpar hv hlen hk8
    have hpar0 : nxB b = noB b ∨ nxB b = noB b + 1 := by
      rcases hpar with ⟨_, h⟩ | ⟨_, h⟩
      · exact Or.inl h
      · exact Or.inr h
    obtain ⟨hwx, hwo⟩ := no_wins_of_val_one hwf hpar0 hv
    have hne : empty_cells b ≠ [] := by
      intro h0
      rw [h0] at hlen
      simp at hlen
    have hgo : game_over b = false := by
      unfold game_over
      rw [hwx, hwo]
      simp only [Bool.false_or]
      exact List.isEmpty_eq_false.mpr hne
    have hstep : self_play (k + 1) b turn pick =
        self_play k (play_turn b turn pick) (other_marker turn) pick := by
      simp only [self_play]
      rw [if_neg (Bool.eq_false_iff.mp hgo)]
    obtain ⟨hwf', hpar', hv', hlen'⟩ :=
      play_turn_step pick hwf hpar hv (by omega) hne
    rw [hstep]
    exact ih (play_turn b turn pick) (other_marker turn) pick hwf' hpar' hv'
      (by omega) (by omega)

/-! ### Decidable well-formedness check for concrete boards -/

def wf3check (b : Board) : Bool :=
  (b.length == 3) &&
  (List.range 3).all (fun x => ((b.getD x []).length == 3) &&
    (List.range 3).all (fun y =>
      (getCell b x y == "x") || (getCell b x y == "o") ||
        pyIsDigit (getCell b x y)))

theorem Wf3_of_check {b : Board} (h : wf3check b = true) : Wf3 b := by
  unfold wf3check at h
  simp only [Bool.and_eq_true, List.all_eq_true, List.mem_range, beq_iff_eq,
    Bool.or_eq_true] at h
  obtain ⟨h3, hrest⟩ := h
  refine ⟨h3, ?_, ?_⟩
  · intro r hr
    obtain ⟨i, hi, hri⟩ := List.mem_iff_getElem.mp hr
    have hi3 : i < 3 := by omega
    have hlen := (hrest i hi3).1
    rw [List.getD_eq_getElem?_getD, List.getElem?_eq_getElem hi] at hlen
    rw [← hri]
    simpa using hlen
  · intro x hx y hy
    rcases (hrest x hx).2 y hy with (h | h) | h
    · exact Or.inl h
    · exact Or.inr (Or.inl h)
    · exact Or.inr (Or.inr h)

/-! ### Claim C1: AI-vs-AI self-play always ends in a draw -/

/-- One non-final self-play step. -/
theorem self_play_succ (n : Nat) (b : Board) (turn : String) (pick : Nat)
    (hgo : game_over b = false) :
    self_play (n + 1) b turn pick =
      self_play n (play_turn b turn pick) (other_marker turn) pick := by
  simp only [self_play]
  rw [if_neg (Bool.eq_false_iff.mp hgo)]

/-- C1: for every opening cell chosen by the random opening move (modelled
by the index pick < 9 into the nine empty cells of the empty board), the
complete self-play game in which both players' moves are produced by
MiniMax_AI_Player.get_move — markers x and o, x moving first from the empty
board, each returned move applied to the board through make_move and turns
alternating until a winning line exists or no empty cell remains — ends
with no winning line for either marker and no empty cell left: a draw. -/
theorem C1_self_play_draw (pick : Nat) (hpick : pick < 9) :
    wins (self_play_game pick) "x" = false ∧
    wins (self_play_game pick) "o" = false ∧
    empty_cells (self_play_game pick) = [] := by
  have hgo : game_over initial_board = false := by decide
  have h0 : self_play_game pick = self_play (8 + 1) initial_board "x" pick := rfl
  rw [h0, self_play_succ 8 initial_board "x" pick hgo]
  have h9 : pick = 0 ∨ pick = 1 ∨ pick = 2 ∨ pick = 3 ∨ pick = 4 ∨ pick = 5 ∨
      pick = 6 ∨ pick = 7 ∨ pick = 8 := by omega
  rcases h9 with rfl | rfl | rfl | rfl | rfl | rfl | rfl | rfl | rfl
  all_goals refine self_play_draw_aux 8 _ _ _ (Wf3_of_check ?_) ?_ ?_ ?_ ?_
  all_goals decide!

/-- Witness for C1: the game with opening index 0 ends drawn. -/
theorem C1_self_play_draw_witness :
    0 < 9 ∧ (wins (self_play_game 0) "x" = false ∧
      wins (self_play_game 0) "o" = false ∧
      empty_cells (self_play_game 0) = []) :=
  ⟨by decide, C1_self_play_draw 0 (by decide)⟩
